import Mathlib

/-!
# Verification of the `cloudsync` reconciliation engine

A shallow embedding of the Rust sources `src/lib.rs` and `src/onedrive.rs`
of the `cloudsync` repository, together with proofs that settle the frozen
claims about its specification.

Modelling conventions:

* Rust `u64` values are modelled as `Nat`.  All theorems below are stated in
  regimes where every intermediate quantity stays far below `2^64`, so plain
  `Nat` arithmetic coincides with `u64` arithmetic (no wrap-around); the
  `u64` overflow check of `str::parse::<u64>` is modelled explicitly.
* `HashMap<String, u64>` is modelled as an association list with unique keys
  (`StrMap`); insertion replaces in place, lookup finds the first match.
  The iteration order of the Rust `HashMap` is unspecified; the model
  iterates in list order, which realises one admissible order.
* Filesystem, network and clock effects are modelled by an explicit
  environment (`Env`) of oracles; a run is a pure function of the
  environment and its inputs.  `panic!`/`unwrap` failures are a distinct
  outcome from `Err` returns.
* String operations (`split`, `split_once`, `rsplit_once`, `lines`,
  `str::parse::<u64>`, integer formatting) are re-implemented on `List Char`
  with structural recursion so that every theorem can be evaluated by the
  kernel.
-/

set_option autoImplicit false

namespace Cloudsync

/-! ## Character-list string utilities (Rust `str` operations) -/

/-- Rust `str::split_once(c)`: split at the first occurrence of `c`. -/
def splitOnceChar (c : Char) : List Char → Option (List Char × List Char)
  | [] => none
  | x :: xs =>
    if x = c then some ([], xs)
    else match splitOnceChar c xs with
      | none => none
      | some (l, r) => some (x :: l, r)

/-- Rust `str::rsplit_once(c)`: split at the last occurrence of `c`. -/
def rsplitOnceChar (c : Char) : List Char → Option (List Char × List Char)
  | [] => none
  | x :: xs =>
    match rsplitOnceChar c xs with
    | some (l, r) => some (x :: l, r)
    | none => if x = c then some ([], xs) else none

/-- Rust `str::split(c)` for a character pattern. -/
def splitChar (c : Char) : List Char → List (List Char)
  | [] => [[]]
  | x :: xs =>
    if x = c then [] :: splitChar c xs
    else match splitChar c xs with
      | [] => [[x]]
      | l :: ls => (x :: l) :: ls

/-- Fuelled worker for `str::split` with a string pattern (non-overlapping,
leftmost-first, matching Rust semantics for a non-empty pattern). -/
def splitOnGo (sep : List Char) : Nat → List Char → List Char → List (List Char)
  | 0, s, acc => [acc.reverse ++ s]
  | _ + 1, [], acc => [acc.reverse]
  | fuel + 1, c :: rest, acc =>
    if sep.isPrefixOf (c :: rest) then
      acc.reverse :: splitOnGo sep fuel (List.drop (sep.length - 1) rest) []
    else
      splitOnGo sep fuel rest (c :: acc)

/-- Rust `str::split(pat)` for a non-empty string pattern.  (The engine only
ever splits on the synced folder's absolute path, which is non-empty.) -/
def splitOnList (sep s : List Char) : List (List Char) :=
  if sep = [] then [s] else splitOnGo sep (s.length + 1) s []

/-- `path.split(folder).last().unwrap()` as used in phases B and C of
`sync_files` (src/lib.rs:426 and :472). -/
def splitLast (folder p : String) : String :=
  ⟨(splitOnList folder.data p.data).getLastD []⟩

/-- Rust `str::lines()`: split on `'\n'`, strip one trailing `'\r'` per line,
and do not yield a final empty line. -/
def linesOf (s : String) : List String :=
  if s.data = [] then []
  else
    let parts := splitChar '\n' s.data
    let parts := if parts.getLastD [] = [] then parts.dropLast else parts
    parts.map fun l =>
      ⟨if l.getLastD ' ' = '\r' then l.dropLast else l⟩

/-! ## Decimal numerals (Rust `format!("{}")` and `str::parse::<u64>`) -/

/-- The decimal digit character of `n % 10`. -/
def digitChar (n : Nat) : Char :=
  match n with
  | 0 => '0' | 1 => '1' | 2 => '2' | 3 => '3' | 4 => '4'
  | 5 => '5' | 6 => '6' | 7 => '7' | 8 => '8' | 9 => '9'
  | _ => '*'

/-- Fuelled decimal printer (most significant digit first). -/
def natToCharsGo : Nat → Nat → List Char → List Char
  | 0, _, acc => acc
  | fuel + 1, n, acc =>
    if n < 10 then digitChar n :: acc
    else natToCharsGo fuel (n / 10) (digitChar (n % 10) :: acc)

/-- Decimal representation of a `Nat`, as produced by Rust `format!("{}")`. -/
def natToString (n : Nat) : String :=
  ⟨natToCharsGo (n + 1) n []⟩

/-- Accumulating decimal reader; `none` on the first non-digit character. -/
def valDigits : List Char → Nat → Option Nat
  | [], acc => some acc
  | c :: cs, acc =>
    if c.isDigit then valDigits cs (acc * 10 + (c.toNat - 48)) else none

/-- Rust `str::parse::<u64>()`: optional leading `'+'`, at least one digit,
   value below `2^64`. -/
def parseU64Chars (cs : List Char) : Option Nat :=
  let cs' :=
    match cs with
    | [] => []
    | c :: rest => if c = '+' then rest else c :: rest
  match cs' with
  | [] => none
  | _ =>
    match valDigits cs' 0 with
    | none => none
    | some v => if v < 2 ^ 64 then some v else none

def parseU64 (s : String) : Option Nat := parseU64Chars s.data

/-! ## Association-list maps (Rust `HashMap<String, u64>`) -/

/-- `HashMap<String, u64>`: association list with unique keys. -/
abbrev StrMap := List (String × Nat)

namespace StrMap

/-- `HashMap::get`. -/
def get? : StrMap → String → Option Nat
  | [], _ => none
  | (k', v') :: rest, k => if k' = k then some v' else get? rest k

/-- `HashMap::insert`: replace in place, or append a fresh key. -/
def insert : StrMap → String → Nat → StrMap
  | [], k, v => [(k, v)]
  | (k', v') :: rest, k, v =>
    if k' = k then (k, v) :: rest else (k', v') :: insert rest k v

/-- `HashMap::remove`. -/
def remove : StrMap → String → StrMap
  | [], _ => []
  | (k', v') :: rest, k => if k' = k then rest else (k', v') :: remove rest k

/-- The key list of a map. -/
def keys (m : StrMap) : List String := m.map Prod.fst

@[simp] theorem keys_nil : keys [] = [] := rfl

@[simp] theorem keys_cons (p : String × Nat) (m : StrMap) :
    keys (p :: m) = p.1 :: keys m := rfl

theorem mem_keys_iff_get? (m : StrMap) (k : String) :
    k ∈ keys m ↔ (get? m k).isSome := by
  induction m with
  | nil => simp [keys, get?]
  | cons p rest ih =>
    obtain ⟨k', v'⟩ := p
    by_cases h : k' = k
    · subst h
      simp [get?]
    · simp only [keys_cons, List.mem_cons, get?, if_neg h]
      rw [← ih]
      simp [Ne.symm h]

theorem get?_insert_self (m : StrMap) (k : String) (v : Nat) :
    get? (insert m k v) k = some v := by
  induction m with
  | nil => simp [insert, get?]
  | cons p rest ih =>
    obtain ⟨k', v'⟩ := p
    by_cases h : k' = k <;> simp [insert, get?, h, ih]

theorem get?_insert_ne (m : StrMap) (k k' : String) (v : Nat) (h : k ≠ k') :
    get? (insert m k v) k' = get? m k' := by
  induction m with
  | nil => simp [insert, get?, h]
  | cons p rest ih =>
    obtain ⟨k₀, v₀⟩ := p
    by_cases h₀ : k₀ = k <;> simp [insert, get?, h₀, h, ih]

theorem keys_insert (m : StrMap) (k : String) (v : Nat) :
    keys (insert m k v) = if k ∈ keys m then keys m else keys m ++ [k] := by
  induction m with
  | nil => simp [insert]
  | cons p rest ih =>
    obtain ⟨k₀, v₀⟩ := p
    by_cases h₀ : k₀ = k
    · simp [insert, h₀]
    · by_cases hm : k ∈ keys rest <;>
        simp [insert, h₀, ih, hm, Ne.symm h₀]

theorem mem_keys_insert_iff (m : StrMap) (k k' : String) (v : Nat) :
    k' ∈ keys (insert m k v) ↔ k' ∈ keys m ∨ k' = k := by
  rw [keys_insert]
  by_cases hm : k ∈ keys m
  · simp only [hm, if_true]
    constructor
    · exact Or.inl
    · rintro (h | rfl) <;> [exact h; exact hm]
  · simp [hm]

theorem keys_remove_sub (m : StrMap) (k k' : String) :
    k' ∈ keys (remove m k) → k' ∈ keys m := by
  induction m with
  | nil => simp [remove]
  | cons p rest ih =>
    obtain ⟨k₀, v₀⟩ := p
    by_cases h₀ : k₀ = k
    · simp [remove, h₀]
      exact fun h => Or.inr h
    · simp [remove, h₀]
      rintro (rfl | h)
      · exact Or.inl rfl
      · exact Or.inr (ih h)

theorem get?_remove_ne (m : StrMap) (k k' : String) (h : k ≠ k') :
    get? (remove m k) k' = get? m k' := by
  induction m with
  | nil => simp [remove]
  | cons p rest ih =>
    obtain ⟨k₀, v₀⟩ := p
    by_cases h₀ : k₀ = k <;> by_cases h₁ : k₀ = k' <;>
      simp_all [remove, get?]

theorem nodup_keys_insert (m : StrMap) (k : String) (v : Nat)
    (h : (keys m).Nodup) : (keys (insert m k v)).Nodup := by
  rw [keys_insert]
  by_cases hm : k ∈ keys m
  · simpa [hm] using h
  · simp only [hm, if_false]
    simpa [List.nodup_append] using ⟨h, hm⟩

theorem nodup_keys_remove (m : StrMap) (k : String)
    (h : (keys m).Nodup) : (keys (remove m k)).Nodup := by
  induction m with
  | nil => simp [remove]
  | cons p rest ih =>
    obtain ⟨k₀, v₀⟩ := p
    simp only [keys_cons, List.nodup_cons] at h
    by_cases h₀ : k₀ = k
    · simpa [remove, h₀] using h.2
    · simp only [remove, h₀, if_false, keys_cons, List.nodup_cons]
      exact ⟨fun hmem => h.1 (keys_remove_sub rest k k₀ hmem), ih h.2⟩

theorem get?_eq_some_of_mem (m : StrMap) (k : String) (v : Nat)
    (hnd : (keys m).Nodup) (h : (k, v) ∈ m) : get? m k = some v := by
  induction m with
  | nil => simp at h
  | cons p rest ih =>
    obtain ⟨k₀, v₀⟩ := p
    simp only [keys_cons, List.nodup_cons] at hnd
    rcases List.mem_cons.mp h with h | h
    · cases h
      simp [get?]
    · have hk : k₀ ≠ k := by
        rintro rfl
        exact hnd.1 (List.mem_map.mpr ⟨(k₀, v), h, rfl⟩)
      simp [get?, hk, ih hnd.2 h]

theorem mem_of_get?_eq_some (m : StrMap) (k : String) (v : Nat)
    (h : get? m k = some v) : (k, v) ∈ m := by
  induction m with
  | nil => simp [get?] at h
  | cons p rest ih =>
    obtain ⟨k₀, v₀⟩ := p
    by_cases h₀ : k₀ = k
    · subst h₀
      simp [get?] at h
      simp [h]
    · simp [get?, h₀] at h
      exact List.mem_cons_of_mem _ (ih h)

end StrMap

/-! ## Data model (src/lib.rs:16-59) -/

inductive SyncService where
  | GDrive
  | Onedrive
deriving DecidableEq

structure Token where
  access_token : String
  refresh_token : String
  valid_till : Nat
deriving DecidableEq

inductive DriveDeltaType where
  | Deleted
  | CreatedOrModifiled
deriving DecidableEq

structure TrackedFile where
  file_path : String
  last_modified : Nat
deriving DecidableEq

/-- `DriveDelta` as declared in src/lib.rs:35-39 and consumed by
`sync_files`.  (The constructor in src/onedrive.rs:249-258 additionally
mentions a `cloud_id` field that this struct does not have; the remote
identifier is not available to `sync_files`.) -/
structure DriveDelta where
  file : TrackedFile
  delta_type : DriveDeltaType
deriving DecidableEq

/-- `HashMap<String, String>` of provider attributes. -/
abbrev AttrMap := List (String × String)

def attrGet : AttrMap → String → Option String
  | [], _ => none
  | (k', v') :: rest, k => if k' = k then some v' else attrGet rest k

structure Account where
  service : SyncService
  token : Token
  last_synced : Nat
  attributes : AttrMap
deriving DecidableEq

/-- The `accounts` table of the configuration file (src/lib.rs:56-59). -/
structure Config where
  accounts : List (String × Account)
deriving DecidableEq

/-! ## Timestamp codec (src/lib.rs:519-581, `parse_iso_date`)

The Rust function `unwrap`s every fallible step, so the model returns
`Option Nat` with `none` standing for a panic.  All arithmetic is `u64`;
for every date with year at most 9999 each intermediate value stays far
below `2^64`, so `Nat` arithmetic models it exactly, and the theorems below
are restricted to that regime. -/

def days_per_year (year : Nat) : Nat :=
  if (year % 4 = 0 ∧ year % 100 ≠ 0) ∨ year % 400 = 0 then 366 else 365

/-- `days_per_month`; `none` models the `unreachable!` panic for a month
outside `1..=12`. -/
def days_per_month (month year : Nat) : Option Nat :=
  match month with
  | 1 => some 31
  | 2 => some (if days_per_year year = 365 then 28 else 29)
  | 3 => some 31
  | 4 => some 30
  | 5 => some 31
  | 6 => some 30
  | 7 => some 31
  | 8 => some 31
  | 9 => some 30
  | 10 => some 31
  | 11 => some 30
  | 12 => some 31
  | _ => none

/-- `for y in 1970..year { days += days_per_year(y) }`. -/
def yearDaysLoop (year : Nat) : Nat :=
  (List.range' 1970 (year - 1970)).foldl (fun acc y => acc + days_per_year y) 0

/-- One iteration of the month loop; propagates the `unreachable!` panic. -/
def monthStep (year : Nat) (acc : Option Nat) (m : Nat) : Option Nat :=
  match acc with
  | none => none
  | some a =>
    match days_per_month m year with
    | none => none
    | some d => some (a + d)

/-- `for m in 1..month { days += days_per_month(m, year) }`. -/
def monthDaysLoop (month year : Nat) : Option Nat :=
  (List.range' 1 (month - 1)).foldl (monthStep year) (some 0)

def parse_iso_date (date_time_str : String) : Option Nat :=
  match splitOnceChar 'T' date_time_str.data with
  | none => none
  | some (date_str, time_str) =>
    match splitChar '-' date_str with
    | t0 :: t1 :: t2 :: _ =>
      match parseU64Chars t0, parseU64Chars t1, parseU64Chars t2 with
      | some year, some month, some date =>
        match splitChar ':' time_str with
        | u0 :: u1 :: u2 :: _ =>
          match parseU64Chars u0, parseU64Chars u1 with
          | some hours, some minutes =>
            if u2.length < 2 then none
            else
              match parseU64Chars (u2.take 2) with
              | none => none
              | some seconds =>
                match monthDaysLoop month year with
                | none => none
                | some days_in_year_so_far =>
                  let days_since_epoch :=
                    yearDaysLoop year + days_in_year_so_far + (date - 1)
                  some (days_since_epoch * 24 * (60 * 60) +
                        hours * (60 * 60) + minutes * 60 + seconds)
          | _, _ => none
        | _ => none
      | _, _, _ => none
    | _ => none

/-! ## OneDrive adapter (src/onedrive.rs) -/

structure FileProperties where
  mimeType : Option String
deriving DecidableEq

structure FolderProperties where
  childCount : Option Nat
deriving DecidableEq

structure ParentReference where
  path : Option String
deriving DecidableEq

structure DeletedFacet where
  state : String
deriving DecidableEq

structure OneDriveItem where
  id : String
  name : Option String
  parentReference : ParentReference
  lastModifiedDateTime : Option String
  file : Option FileProperties
  folder : Option FolderProperties
  deleted : Option DeletedFacet
deriving DecidableEq

/-- Outcome of converting one `OneDriveItem` in the `get_drive_delta` loop
(src/onedrive.rs:225-259): filtered out, panic, or a produced delta. -/
inductive ConvRes where
  | skip
  | crash
  | conv (d : DriveDelta)
deriving DecidableEq

/-- The loop body of `get_drive_delta` (src/onedrive.rs:225-259).
`parent.split_off(12)` drops the `"/drive/root:"` prefix of the parent
path.  The `cloud_id: file.id` field of the Rust struct literal has no
counterpart in the `DriveDelta` struct consumed by `sync_files` and is
dropped. -/
def itemToDelta (item : OneDriveItem) : ConvRes :=
  if item.folder.isSome then .skip
  else if item.name.isNone then .skip
  else
    let file_name := item.name.getD ""
    if file_name = "" then .skip
    else
      let file_path :=
        match item.parentReference.path with
        | some parent => (⟨parent.data.drop 12⟩ : String) ++ "/" ++ file_name
        | none => "/" ++ file_name
      match item.lastModifiedDateTime with
      | none => .crash
      | some s =>
        match parse_iso_date s with
        | none => .crash
        | some last_modified =>
          .conv ⟨⟨file_path, last_modified⟩,
                 if item.deleted.isSome then .Deleted else .CreatedOrModifiled⟩

/-- The URL that `delete_file` (src/onedrive.rs:189-210) issues a `DELETE`
request against; its argument is the **item identifier** slot of the
Microsoft Graph API. -/
def onedrive_delete_url (cloud_id : String) : String :=
  "https://graph.microsoft.com/v1.0/me/drive/items/" ++ cloud_id

def root_delta_link : String :=
  "https://graph.microsoft.com/v1.0/me/drive/root/delta"

/-- Cursor selection of `get_drive_delta` (src/onedrive.rs:216-220). -/
def delta_link_of (attributes : AttrMap) : String :=
  (attrGet attributes "delta_link").getD root_delta_link

/-! ## Sync state store (the `.cloudfiles` file, src/lib.rs:282-316 and
495-508) -/

/-- Parsing the `.cloudfiles` contents (src/lib.rs:299-316): per line,
`split_once(':')` then `str::parse::<u64>`; the first malformed line makes
the whole load **return an error**. -/
def parseCloudLine (acc : Except String StrMap) (line : String) :
    Except String StrMap :=
  match acc with
  | .error e => .error e
  | .ok m =>
    match splitOnceChar ':' line.data with
    | none => .error "Incorrect .cloudfile please resync this folder from start"
    | some (last_modified_str, file_path) =>
      match parseU64Chars last_modified_str with
      | none => .error "Unknown config format"
      | some last_modified => .ok (m.insert ⟨file_path⟩ last_modified)

def parseCloudfiles (contents : String) : Except String StrMap :=
  (linesOf contents).foldl parseCloudLine (.ok [])

/-- Serialisation at commit (src/lib.rs:504-508): one `"{lm}:{path}\n"` line
per entry. -/
def serializeCloudfiles (m : StrMap) : String :=
  m.foldl (fun acc kv => acc ++ natToString kv.2 ++ ":" ++ kv.1 ++ "\n") ""

/-! ## Local filesystem scanner (src/lib.rs:228-251, `read_dir_rec`) -/

/-- A directory tree: named entries are regular files (with a modification
time in whole seconds) or subdirectories. -/
inductive FSTree where
  | file : Nat → FSTree
  | dir : List (String × FSTree) → FSTree

/-- `read_dir_rec`: recursive directory walk inserting every regular file
into the snapshot under `folder ++ "/" ++ name`.  There is no filtering of
any kind — in particular no exclusion of the engine's own `.cloudfiles`
state file. -/
def read_dir_rec : String → List (String × FSTree) → StrMap → StrMap
  | _, [], files => files
  | folder, (name, .file last_modified) :: rest, files =>
    read_dir_rec folder rest (files.insert (folder ++ "/" ++ name) last_modified)
  | folder, (name, .dir sub) :: rest, files =>
    read_dir_rec folder rest (read_dir_rec (folder ++ "/" ++ name) sub files)

/-- The files a recursive descent of the tree reaches, in traversal order,
with their full paths.  This is the specification-side description of the
LocalSnapshot ("every regular file reachable by recursive descent"). -/
def reachableFiles : String → List (String × FSTree) → List (String × Nat)
  | _, [] => []
  | folder, (name, .file m) :: rest =>
    (folder ++ "/" ++ name, m) :: reachableFiles folder rest
  | folder, (name, .dir sub) :: rest =>
    reachableFiles (folder ++ "/" ++ name) sub ++ reachableFiles folder rest

/-! ## Account persistence (src/lib.rs:182-213, `save_account`) -/

/-- Replace-or-append into the accounts table (`HashMap::insert` by account
name). -/
def accountsInsert : List (String × Account) → String → Account → List (String × Account)
  | [], k, v => [(k, v)]
  | (k', v') :: rest, k, v =>
    if k' = k then (k, v) :: rest else (k', v') :: accountsInsert rest k v

/-- `FileExt::write_all_at(buf, 0)`: overwrite the file starting at offset 0
**without truncating** — bytes of the previous content beyond `new.length`
survive. -/
def write_all_at (old new : List Char) : List Char :=
  new ++ old.drop new.length

/-- Model of `save_account` (src/lib.rs:182-213), parameterised by the
`serde_json` codec: `parseConfig` models `serde_json::from_str::<Config>`
(`none` = parse error, which the code replaces by an empty table) and
`serConfig` models `serde_json::to_string`.  The function returns the
resulting contents of the configuration file. -/
def save_account (parseConfig : String → Option Config)
    (serConfig : Config → String)
    (old_contents : String) (account_name : String) (account : Account) :
    String :=
  let config := (parseConfig old_contents).getD ⟨[]⟩
  let config : Config := ⟨accountsInsert config.accounts account_name account⟩
  let config_data := serConfig config
  ⟨write_all_at old_contents.data config_data.data⟩

/-- A concrete `serde_json::to_string` for `Config`, matching serde's
output: struct fields in declaration order, maps as JSON objects, unit enum
variants as strings, no whitespace.  (The iteration order of a `HashMap`
with more than one entry is arbitrary in Rust; this serialiser fixes list
order, which realises one admissible order and is exact for the
single-account tables used in the theorems below.)  No string escaping is
performed, so it is exact for field values free of `"` and `\`. -/
def joinComma : List String → String
  | [] => ""
  | [x] => x
  | x :: xs => x ++ "," ++ joinComma xs

def jsonStr (s : String) : String := "\"" ++ s ++ "\""

def serService : SyncService → String
  | .GDrive => "\"GDrive\""
  | .Onedrive => "\"Onedrive\""

def serToken (t : Token) : String :=
  "\x7b\"access_token\":" ++ jsonStr t.access_token ++
  ",\"refresh_token\":" ++ jsonStr t.refresh_token ++
  ",\"valid_till\":" ++ natToString t.valid_till ++ "\x7d"

def serAttrs (l : AttrMap) : String :=
  "\x7b" ++ joinComma (l.map fun kv => jsonStr kv.1 ++ ":" ++ jsonStr kv.2) ++ "\x7d"

def serAccount (a : Account) : String :=
  "\x7b\"service\":" ++ serService a.service ++
  ",\"token\":" ++ serToken a.token ++
  ",\"last_synced\":" ++ natToString a.last_synced ++
  ",\"attributes\":" ++ serAttrs a.attributes ++ "\x7d"

def configToJson (c : Config) : String :=
  "\x7b\"accounts\":\x7b" ++
  joinComma (c.accounts.map fun kv => jsonStr kv.1 ++ ":" ++ serAccount kv.2) ++
  "\x7d\x7d"

/-! ## The reconciliation engine (src/lib.rs:258-516, `sync_files`)

All effects are supplied by an environment of oracles.  `ts` is the wall
clock indexed by the number of `timestamp()` calls made so far (the Rust
clock is read repeatedly; successive reads may return arbitrary values
here, and theorems state the monotonicity they need as hypotheses).  Every
per-item oracle answers by the same key the code passes to the
corresponding Rust call. -/

structure Env where
  /-- `timestamp()` by call index. -/
  ts : Nat → Nat
  /-- `refresh_token`: the replacement token, or `none` for a failure. -/
  refresh : Option Token
  /-- `get_drive_delta`'s paginated fetch: from a delta link, the converted
  delta batch and the provider's next `@odata.deltaLink` (if any). -/
  feed : String → List DriveDelta × Option String
  /-- `onedrive::download_file` by remote path: contents or an error. -/
  download : String → Option String
  /-- `onedrive::upload_new_file` by remote path and contents: the remote id
  or an error. -/
  upload : String → String → Option String
  /-- `std::fs::read` by local path: contents or an error. -/
  readFile : String → Option String
  /-- `onedrive::delete_file` by the string passed as `cloud_id`. -/
  delete_ok : String → Bool
  /-- `std::fs::remove_file` by local path. -/
  remove_ok : String → Bool
  /-- `std::fs::create_dir_all` by local path. -/
  mkdir_ok : String → Bool
  /-- `std::fs::write` by local path. -/
  fswrite_ok : String → Bool
  /-- `File::set_len(0)` on the state file. -/
  truncate_ok : Bool
  /-- `writeln!` per line index while persisting the state file. -/
  write_line_ok : Nat → Bool
  /-- `save_account` of the updated account record. -/
  save_ok : Bool

/-- The engine's mutable state while `sync_files` runs, plus the traces of
the remote/local calls it has issued. -/
structure SyncSt where
  clock : Nat
  local_files : StrMap
  cloudfiles : StrMap
  downloaded_count : Nat
  uploaded_count : Nat
  deleted_local_count : Nat
  deleted_cloud_count : Nat
  download_calls : List String
  upload_calls : List String
  delete_calls : List String
  local_remove_calls : List String
deriving DecidableEq

/-- Outcome of one engine step: normal continuation, a Rust `Err` return,
or a panic. -/
inductive StepRes (α : Type) where
  | ok (a : α)
  | err (msg : String)
  | crash
deriving DecidableEq

/-- Short-circuiting fold of a step function over a list (a Rust `for`
loop whose body may `return Err` or panic). -/
def runFold {α : Type} (f : SyncSt → α → StepRes SyncSt) :
    SyncSt → List α → StepRes SyncSt
  | st, [] => .ok st
  | st, x :: xs =>
    match f st x with
    | .ok st' => runFold f st' xs
    | .err e => .err e
    | .crash => .crash

/-- Phase A step (src/lib.rs:351-422): apply one remote delta entry. -/
def applyDelta (env : Env) (fresh : Bool) (last_synced : Nat)
    (folder_to_sync : String) (st : SyncSt) (delta : DriveDelta) :
    StepRes SyncSt :=
  if delta.file.last_modified ≤ last_synced then .ok st
  else
    match rsplitOnceChar '/' delta.file.file_path.data with
    | none => .crash
    | some (folderChars, _) =>
      let folder : String := ⟨folderChars⟩
      let file_path := delta.file.file_path
      let full_file_path := folder_to_sync ++ file_path
      let local_modified := (st.local_files.get? full_file_path).getD 0
      let cloud_modified := if fresh then env.ts st.clock else delta.file.last_modified
      let clock' := if fresh then st.clock + 1 else st.clock
      match delta.delta_type with
      | .Deleted =>
        if local_modified < cloud_modified then
          if env.remove_ok full_file_path then
            .ok { st with
              clock := clock'
              local_files := st.local_files.remove full_file_path
              deleted_local_count := st.deleted_local_count + 1
              local_remove_calls := st.local_remove_calls ++ [full_file_path]
              cloudfiles := st.cloudfiles.remove file_path }
          else
            .ok { st with
              clock := clock'
              cloudfiles := st.cloudfiles.remove file_path }
        else
          .ok { st with
            clock := clock'
            cloudfiles := st.cloudfiles.remove file_path }
      | .CreatedOrModifiled =>
        if local_modified < cloud_modified then
          let full_folder_path := folder_to_sync ++ "/" ++ folder
          if env.mkdir_ok full_folder_path then
            match env.download file_path with
            | some _contents =>
              if env.fswrite_ok full_file_path then
                .ok { st with
                  clock := clock' + 1
                  cloudfiles := st.cloudfiles.insert file_path (env.ts clock')
                  local_files := st.local_files.insert full_file_path (env.ts clock')
                  downloaded_count := st.downloaded_count + 1
                  download_calls := st.download_calls ++ [file_path] }
              else .err "fs write failed"
            | none =>
              .ok { st with
                clock := clock'
                download_calls := st.download_calls ++ [file_path] }
          else .err "create_dir_all failed"
        else
          .ok { st with
            clock := clock'
            cloudfiles := st.cloudfiles.remove file_path }

/-- Phase B step (src/lib.rs:425-462): consider one local file for upload. -/
def uploadStep (env : Env) (last_synced : Nat) (folder_to_sync : String)
    (st : SyncSt) (entry : String × Nat) : StepRes SyncSt :=
  let file_path := entry.1
  let local_modified := entry.2
  let drive_relative_path := splitLast folder_to_sync file_path
  let result := st.cloudfiles.get? drive_relative_path
  let is_file_modified :=
    match result with
    | some v => decide (last_synced < local_modified) && decide (v < local_modified)
    | none => false
  if is_file_modified || result.isNone then
    match env.readFile file_path with
    | some contents =>
      let st := { st with upload_calls := st.upload_calls ++ [drive_relative_path] }
      match env.upload drive_relative_path contents with
      | some _id =>
        let ts := env.ts st.clock
        .ok { st with
          clock := st.clock + 1
          cloudfiles := st.cloudfiles.insert drive_relative_path ts
          uploaded_count := st.uploaded_count + 1 }
      | none => .ok st
    | none => .ok st
  else .ok st

/-- Phase C step (src/lib.rs:467-488): propagate one tracked entry with no
local counterpart as a remote delete.  The argument handed to
`onedrive::delete_file` (i.e. to the item-id slot of the Graph API) is
`drive_relative_path`. -/
def deleteStep (env : Env) (folder_to_sync : String)
    (st : SyncSt) (entry : String × Nat) : StepRes SyncSt :=
  let file_path := entry.1
  let full_file_path := folder_to_sync ++ file_path
  if (st.local_files.get? full_file_path).isNone then
    let drive_relative_path := splitLast folder_to_sync file_path
    let st := { st with delete_calls := st.delete_calls ++ [drive_relative_path] }
    if env.delete_ok drive_relative_path then
      .ok { st with
        cloudfiles := st.cloudfiles.remove drive_relative_path
        deleted_cloud_count := st.deleted_cloud_count + 1 }
    else .ok st
  else .ok st

/-- Fresh-sync cleanup (src/lib.rs:325-334): delete every scanned file from
disk, fatal on the first failure; returns the removal trace. -/
def freshCleanup (env : Env) : List (String × Nat) → List String →
    Except String (List String)
  | [], acc => .ok acc
  | (p, _) :: rest, acc =>
    if env.remove_ok p then freshCleanup env rest (acc ++ [p])
    else .error "Cannot remove file"

/-- Persisting the state file line by line (src/lib.rs:504-508), fatal on
the first failed `writeln!`; returns the full contents written. -/
def commitLines (env : Env) : Nat → String → List (String × Nat) →
    Except String String
  | _, accStr, [] => .ok accStr
  | i, accStr, (k, v) :: rest =>
    if env.write_line_ok i then
      commitLines env (i + 1) (accStr ++ natToString v ++ ":" ++ k ++ "\n") rest
    else .error "ERROR: Cannot save file in file list"

/-- The fresh-flag reset (src/lib.rs:272-275). -/
def freshReset (account : Account) (fresh : Bool) : Account :=
  if fresh then { account with last_synced := 0, attributes := [] } else account

def attrInsert : AttrMap → String → String → AttrMap
  | [], k, v => [(k, v)]
  | (k', v') :: rest, k, v =>
    if k' = k then (k, v) :: rest else (k', v') :: attrInsert rest k v

/-- `get_drive_delta` (src/onedrive.rs:212-262) at the granularity the
engine sees: pick the cursor from `account.attributes` (or the drive root),
ask the provider, and store the new cursor back into the attributes. -/
def get_drive_delta (env : Env) (account : Account) :
    List DriveDelta × Account :=
  match env.feed (delta_link_of account.attributes) with
  | (deltas, some l) =>
    (deltas, { account with attributes := attrInsert account.attributes "delta_link" l })
  | (deltas, none) => (deltas, account)

/-- Result of a successful run: final engine state, the account to be
persisted, and the contents written to the state file. -/
structure SyncResult where
  st : SyncSt
  account : Account
  file_content : String
deriving DecidableEq

/-- Outcome of `sync_files`: success, an `Err` return (carrying the account
as the caller's `&mut` reference observes it), or a panic. -/
inductive RunOut where
  | ok (r : SyncResult)
  | err (msg : String) (account : Account)
  | crash
deriving DecidableEq

/-- Setup: the conditional token refresh (src/lib.rs:266-270); `none` is the
fatal refresh failure. -/
def tokenStage (env : Env) (account : Account) : Option Account :=
  let now := env.ts 0
  if account.token.valid_till < now then
    match env.refresh with
    | some t => some { account with token := t }
    | none => none
  else some account

/-- Loading the SyncState (src/lib.rs:295-316): skipped entirely on a fresh
run. -/
def loadStage (fresh : Bool) (cloudfiles_contents : String) :
    Except String StrMap :=
  if fresh then .ok [] else parseCloudfiles cloudfiles_contents

/-- The LocalSnapshot entering Phase A (src/lib.rs:319-334): the scan, or —
on a fresh run — the empty map after deleting every scanned file (fatal on
the first failure). -/
def cleanupStage (env : Env) (fresh : Bool) (scan : StrMap) :
    Except String StrMap :=
  if fresh then (freshCleanup env scan []).map (fun _ => []) else .ok scan

/-- Commit (src/lib.rs:495-513): truncate, write every line, then set
`account.last_synced = timestamp()` and save the account. -/
def commitStage (env : Env) (account : Account) (st : SyncSt) : RunOut :=
  if env.truncate_ok then
    match commitLines env 0 "" st.cloudfiles with
    | .error e => .err e account
    | .ok content =>
      let now2 := env.ts st.clock
      let st := { st with clock := st.clock + 1 }
      let account := { account with last_synced := now2 }
      if env.save_ok then .ok ⟨st, account, content⟩
      else .err "save_account failed" account
  else .err "Cannot write to file" account

/-- The three reconciliation phases (src/lib.rs:351-488) followed by the
commit. -/
def phasesStage (env : Env) (folder_to_sync : String) (fresh : Bool)
    (account : Account) (st : SyncSt) (deltas : List DriveDelta) : RunOut :=
  match runFold (applyDelta env fresh account.last_synced folder_to_sync) st deltas with
  | .err e => .err e account
  | .crash => .crash
  | .ok st =>
    match runFold (uploadStep env account.last_synced folder_to_sync) st st.local_files with
    | .err e => .err e account
    | .crash => .crash
    | .ok st =>
      match runFold (deleteStep env folder_to_sync) st st.cloudfiles with
      | .err e => .err e account
      | .crash => .crash
      | .ok st => commitStage env account st

/-- The engine state entering Phase A. -/
def initialSt (local_files0 cloudfiles0 : StrMap) : SyncSt :=
  { clock := 1
    local_files := local_files0
    cloudfiles := cloudfiles0
    downloaded_count := 0
    uploaded_count := 0
    deleted_local_count := 0
    deleted_cloud_count := 0
    download_calls := []
    upload_calls := []
    delete_calls := []
    local_remove_calls := [] }

/-- `sync_files` (src/lib.rs:258-516).  `cloudfiles_contents` is the
contents of the `.cloudfiles` state file as opened at run start (the empty
string if it was just created), and `scan` is the LocalSnapshot produced by
`read_dir_rec` over the synced folder. -/
def sync_files (env : Env) (account : Account) (folder_to_sync : String)
    (fresh : Bool) (cloudfiles_contents : String) (scan : StrMap) : RunOut :=
  match tokenStage env account with
  | none => .err "token refresh failed" account
  | some account =>
    let account := freshReset account fresh
    match loadStage fresh cloudfiles_contents with
    | .error e => .err e account
    | .ok cloudfiles0 =>
      match cleanupStage env fresh scan with
      | .error e => .err e account
      | .ok local_files0 =>
        -- delta fetch, src/lib.rs:342-345
        let (deltas, account) := get_drive_delta env account
        phasesStage env folder_to_sync fresh account
          (initialSt local_files0 cloudfiles0) deltas

/-! ## Claim C1 — the `CreatedOrModified` tie-break -/

/-- Claim C1: for a `CreatedOrModified` delta entry that passes the
`last_synced` filter, in a non-fresh run: if the remote timestamp is not
strictly greater than the local modification time then no download call is
made and the only state change is the removal of the entry's key from the
SyncState (demotion to untracked); and a download call happens only when
the remote timestamp is strictly greater than the local one. -/
theorem C1_tiebreak_strict (env : Env) (last_synced : Nat)
    (folder_to_sync : String) (st : SyncSt) (d : DriveDelta)
    (hty : d.delta_type = .CreatedOrModifiled)
    (hskip : last_synced < d.file.last_modified)
    (hsl : (rsplitOnceChar '/' d.file.file_path.data).isSome) :
    (d.file.last_modified ≤
        ((st.local_files.get? (folder_to_sync ++ d.file.file_path)).getD 0) →
      applyDelta env false last_synced folder_to_sync st d =
        .ok { st with cloudfiles := st.cloudfiles.remove d.file.file_path }) ∧
    (∀ st', applyDelta env false last_synced folder_to_sync st d = .ok st' →
      st'.download_calls ≠ st.download_calls →
      ((st.local_files.get? (folder_to_sync ++ d.file.file_path)).getD 0) <
        d.file.last_modified) := by
  obtain ⟨⟨fc, rest⟩, hpair⟩ := Option.isSome_iff_exists.mp hsl
  have hns : ¬ d.file.last_modified ≤ last_synced := Nat.not_le.mpr hskip
  constructor
  · intro hle
    have hnd : ¬ ((st.local_files.get? (folder_to_sync ++ d.file.file_path)).getD 0
        < d.file.last_modified) := Nat.not_lt.mpr hle
    simp [applyDelta, hpair, hty, hns, hnd]
  · intro st' hok hcalls
    by_cases hlt : ((st.local_files.get? (folder_to_sync ++ d.file.file_path)).getD 0)
        < d.file.last_modified
    · exact hlt
    · exfalso
      simp [applyDelta, hpair, hty, hns, hlt] at hok
      cases hok
      exact hcalls rfl

/-- Witness for C1 at a concrete input: remote and local timestamps both
`7`, entry not skipped (`last_synced = 3`); the step removes the tracking
entry and makes no download call. -/
theorem C1_tiebreak_strict_witness :
    applyDelta
      { ts := fun _ => 50, refresh := none, feed := fun _ => ([], none),
        download := fun _ => some "", upload := fun _ _ => some "id",
        readFile := fun _ => some "", delete_ok := fun _ => true,
        remove_ok := fun _ => true, mkdir_ok := fun _ => true,
        fswrite_ok := fun _ => true, truncate_ok := true,
        write_line_ok := fun _ => true, save_ok := true }
      false 3 "/r"
      { clock := 1, local_files := [("/r/a/f.txt", 7)], cloudfiles := [("/a/f.txt", 5)],
        downloaded_count := 0, uploaded_count := 0, deleted_local_count := 0,
        deleted_cloud_count := 0, download_calls := [], upload_calls := [],
        delete_calls := [], local_remove_calls := [] }
      ⟨⟨"/a/f.txt", 7⟩, .CreatedOrModifiled⟩ =
      .ok { clock := 1, local_files := [("/r/a/f.txt", 7)], cloudfiles := [],
            downloaded_count := 0, uploaded_count := 0, deleted_local_count := 0,
            deleted_cloud_count := 0, download_calls := [], upload_calls := [],
            delete_calls := [], local_remove_calls := [] } := by
  have h := (C1_tiebreak_strict
    { ts := fun _ => 50, refresh := none, feed := fun _ => ([], none),
      download := fun _ => some "", upload := fun _ _ => some "id",
      readFile := fun _ => some "", delete_ok := fun _ => true,
      remove_ok := fun _ => true, mkdir_ok := fun _ => true,
      fswrite_ok := fun _ => true, truncate_ok := true,
      write_line_ok := fun _ => true, save_ok := true }
    3 "/r"
    { clock := 1, local_files := [("/r/a/f.txt", 7)], cloudfiles := [("/a/f.txt", 5)],
      downloaded_count := 0, uploaded_count := 0, deleted_local_count := 0,
      deleted_cloud_count := 0, download_calls := [], upload_calls := [],
      delete_calls := [], local_remove_calls := [] }
    ⟨⟨"/a/f.txt", 7⟩, .CreatedOrModifiled⟩
    rfl (by decide) (by decide)).1 (by decide)
  simpa [StrMap.remove] using h

/-! ## Claim C5 — deletion propagation deletes by path, not by remote id

The spec demands `Delete(remote_id)`.  The persisted SyncState
(`.cloudfiles`, format `"{last_modified}:{relative_path}"`) stores **no
remote identifier at all**, and src/lib.rs:475 passes
`drive_relative_path` as the `cloud_id` argument of
`onedrive::delete_file`, which splices it into the item-id slot of the
Graph API URL (src/onedrive.rs:196-199). -/

def C5env : Env :=
  { ts := fun _ => 100, refresh := none, feed := fun _ => ([], none),
    download := fun _ => some "", upload := fun _ _ => some "id",
    readFile := fun _ => some "", delete_ok := fun _ => true,
    remove_ok := fun _ => true, mkdir_ok := fun _ => true,
    fswrite_ok := fun _ => true, truncate_ok := true,
    write_line_ok := fun _ => true, save_ok := true }

def C5account : Account := ⟨.Onedrive, ⟨"t", "r", 1000⟩, 7, []⟩

/-- Claim C5, evaluated at the failing input: the state file tracks
`"/a.txt"` (entry `7:/a.txt`) and no local file exists.  Exactly one
delete call is issued and the entry is gone after commit — but the call's
argument is the relative path `"/a.txt"`, which `delete_file` embeds in
the item-id slot of the request URL; no remote id is involved anywhere. -/
theorem C5_delete_call_uses_path :
    sync_files C5env C5account "/f" false "7:/a.txt\n" [] =
      RunOut.ok ⟨⟨2, [], [], 0, 0, 0, 1, [], [], ["/a.txt"], []⟩,
                 ⟨.Onedrive, ⟨"t", "r", 1000⟩, 100, []⟩, ""⟩ ∧
    onedrive_delete_url "/a.txt" =
      "https://graph.microsoft.com/v1.0/me/drive/items//a.txt" := by
  decide

/-! ## Claim C6 — a malformed state file aborts the run (not self-healing) -/

def C6account : Account := ⟨.Onedrive, ⟨"t", "r", 1000⟩, 0, []⟩

/-- Claim C6 counterexample: on state-file contents without a `':'`
separator, loading does **not** return an empty SyncState — the run aborts
with the `Err` from src/lib.rs:303-307.  (Only with `fresh = false`; the
file is not read at all on a fresh run.) -/
theorem C6_counterexample :
    sync_files C5env C6account "/r" false "corrupt" [] =
      RunOut.err "Incorrect .cloudfile please resync this folder from start"
        C6account := by
  decide

/-- A line of the state file that the loader accepts: it has a `':'` and
the part before the first `':'` parses as a `u64`. -/
def cloudLineOk (line : String) : Bool :=
  match splitOnceChar ':' line.data with
  | none => false
  | some (last_modified_str, _) => (parseU64Chars last_modified_str).isSome

theorem parseCloudLine_error (e : String) (ls : List String) :
    ls.foldl parseCloudLine (.error e) = .error e := by
  induction ls with
  | nil => rfl
  | cons l rest ih => simpa [parseCloudLine] using ih

theorem parseCloudfiles_fold_ok_iff (ls : List String) (m0 : StrMap) :
    (∃ m, ls.foldl parseCloudLine (.ok m0) = .ok m) ↔
      ∀ l ∈ ls, cloudLineOk l = true := by
  induction ls generalizing m0 with
  | nil => simp
  | cons l rest ih =>
    simp only [List.foldl_cons, List.mem_cons]
    rcases hsp : splitOnceChar ':' l.data with _ | ⟨lmStr, path⟩
    · have hstep : parseCloudLine (.ok m0) l =
          .error "Incorrect .cloudfile please resync this folder from start" := by
        simp [parseCloudLine, hsp]
      rw [hstep, parseCloudLine_error]
      constructor
      · rintro ⟨m, hm⟩
        simp at hm
      · intro h
        exact absurd (h l (Or.inl rfl)) (by simp [cloudLineOk, hsp])
    · rcases hv : parseU64Chars lmStr with _ | v
      · have hstep : parseCloudLine (.ok m0) l = .error "Unknown config format" := by
          simp [parseCloudLine, hsp, hv]
        rw [hstep, parseCloudLine_error]
        constructor
        · rintro ⟨m, hm⟩
          simp at hm
        · intro h
          exact absurd (h l (Or.inl rfl)) (by simp [cloudLineOk, hsp, hv])
      · have hstep : parseCloudLine (.ok m0) l = .ok (m0.insert ⟨path⟩ v) := by
          simp [parseCloudLine, hsp, hv]
        rw [hstep, ih]
        constructor
        · intro h x hx
          rcases hx with rfl | hx
          · simp [cloudLineOk, hsp, hv]
          · exact h x hx
        · intro h x hx
          exact h x (Or.inr hx)

/-- Claim C6, amended: loading the persisted SyncState returns an empty
state on an **absent or empty** file, but on malformed text (a line
without `':'`, or whose timestamp field does not parse as a `u64`) it
returns an error — corruption aborts the run instead of self-healing. -/
theorem C6_amended_load_behaviour :
    parseCloudfiles "" = .ok [] ∧
    ∀ contents : String,
      (∃ m, parseCloudfiles contents = .ok m) ↔
        ∀ l ∈ linesOf contents, cloudLineOk l = true := by
  refine ⟨rfl, fun contents => ?_⟩
  exact parseCloudfiles_fold_ok_iff (linesOf contents) []

/-- Witness for C6's amended statement at concrete inputs: a well-formed
file loads, a file with a colon-free line errors. -/
theorem C6_amended_load_behaviour_witness :
    (∃ m, parseCloudfiles "7:/a.txt\n" = .ok m) ∧
    ¬ (∃ m, parseCloudfiles "corrupt" = .ok m) := by
  constructor
  · exact (C6_amended_load_behaviour.2 "7:/a.txt\n").mpr (by decide)
  · intro h
    have := (C6_amended_load_behaviour.2 "corrupt").mp h
    exact absurd (this "corrupt" (by decide)) (by decide)

/-! ## Claim C7 — the scanner does not exclude the state file -/

theorem keys_append (a b : StrMap) :
    StrMap.keys (a ++ b) = StrMap.keys a ++ StrMap.keys b := by
  simp [StrMap.keys]

theorem insert_eq_append_of_not_mem (m : StrMap) (k : String) (v : Nat)
    (h : k ∉ StrMap.keys m) : StrMap.insert m k v = m ++ [(k, v)] := by
  induction m with
  | nil => rfl
  | cons p rest ih =>
    obtain ⟨k₀, v₀⟩ := p
    simp only [StrMap.keys_cons, List.mem_cons] at h
    push_neg at h
    simp [StrMap.insert, Ne.symm h.1, ih h.2]

/-- Folding `HashMap::insert` over a list of fresh entries. -/
def insertList (acc : StrMap) (l : List (String × Nat)) : StrMap :=
  l.foldl (fun a kv => a.insert kv.1 kv.2) acc

theorem insertList_eq_append (acc : StrMap) (l : List (String × Nat))
    (h : (StrMap.keys acc ++ StrMap.keys l).Nodup) :
    insertList acc l = acc ++ l := by
  induction l generalizing acc with
  | nil => simp [insertList]
  | cons kv rest ih =>
    obtain ⟨k, v⟩ := kv
    have hdisj : k ∉ StrMap.keys acc := by
      intro hk
      have := List.disjoint_of_nodup_append h hk
      simp at this
    have hstep : StrMap.insert acc k v = acc ++ [(k, v)] :=
      insert_eq_append_of_not_mem acc k v hdisj
    have hnd' : (StrMap.keys (acc ++ [(k, v)]) ++ StrMap.keys rest).Nodup := by
      rw [keys_append]
      simpa [StrMap.keys] using h
    calc insertList acc ((k, v) :: rest)
        = insertList (StrMap.insert acc k v) rest := rfl
      _ = insertList (acc ++ [(k, v)]) rest := by rw [hstep]
      _ = (acc ++ [(k, v)]) ++ rest := ih _ hnd'
      _ = acc ++ (k, v) :: rest := by simp

theorem read_dir_rec_eq_insertList (folder : String)
    (entries : List (String × FSTree)) (files : StrMap) :
    read_dir_rec folder entries files =
      insertList files (reachableFiles folder entries) := by
  induction folder, entries, files using read_dir_rec.induct with
  | case1 folder files =>
    simp [read_dir_rec, reachableFiles, insertList]
  | case2 folder name m rest files ih =>
    calc read_dir_rec folder ((name, .file m) :: rest) files
        = read_dir_rec folder rest (files.insert (folder ++ "/" ++ name) m) := by
          rw [read_dir_rec]
      _ = insertList (files.insert (folder ++ "/" ++ name) m)
            (reachableFiles folder rest) := ih
      _ = insertList files (reachableFiles folder ((name, .file m) :: rest)) := by
          rw [reachableFiles]
          rfl
  | case3 folder name sub rest files ih_sub ih_rest =>
    calc read_dir_rec folder ((name, .dir sub) :: rest) files
        = read_dir_rec folder rest (read_dir_rec (folder ++ "/" ++ name) sub files) := by
          rw [read_dir_rec]
      _ = insertList (read_dir_rec (folder ++ "/" ++ name) sub files)
            (reachableFiles folder rest) := ih_rest
      _ = insertList (insertList files (reachableFiles (folder ++ "/" ++ name) sub))
            (reachableFiles folder rest) := by rw [ih_sub]
      _ = insertList files (reachableFiles folder ((name, .dir sub) :: rest)) := by
          rw [reachableFiles, insertList, insertList, insertList, List.foldl_append]

/-- Claim C7 counterexample: on a root whose directory holds the reserved
state file `.cloudfiles`, the snapshot produced by `read_dir_rec` **does**
contain it (the claim says it never does). -/
theorem C7_counterexample :
    (read_dir_rec "/r" [(".cloudfiles", .file 5), ("a.txt", .file 7)] []).get?
      "/r/.cloudfiles" = some 5 := by
  simp [read_dir_rec, StrMap.insert, StrMap.get?]

/-- Claim C7, amended: the LocalSnapshot contains **every** regular file
reachable by recursive descent — with no exception for the engine's
reserved state file, which is scanned like any other file (and is hence
visible to upload, delete and fresh-cleanup logic).  Stated for trees
whose reachable files have pairwise distinct full paths, as produced by a
real directory walk. -/
theorem C7_snapshot_is_all_reachable_files (root : String)
    (entries : List (String × FSTree)) (p : String) (m : Nat)
    (hnd : (StrMap.keys (reachableFiles root entries)).Nodup) :
    (read_dir_rec root entries []).get? p = some m ↔
      (p, m) ∈ reachableFiles root entries := by
  rw [read_dir_rec_eq_insertList,
      insertList_eq_append [] (reachableFiles root entries) (by simpa using hnd),
      List.nil_append]
  exact ⟨StrMap.mem_of_get?_eq_some _ p m,
         StrMap.get?_eq_some_of_mem _ p m hnd⟩

/-- Witness for C7's amended statement on a concrete tree containing the
state file: `.cloudfiles` at the root is part of the snapshot. -/
theorem C7_snapshot_is_all_reachable_files_witness :
    (read_dir_rec "/r" [(".cloudfiles", .file 5), ("d", .dir [("b.txt", .file 9)])] []).get?
      "/r/.cloudfiles" = some 5 := by
  have hre : reachableFiles "/r" [(".cloudfiles", .file 5), ("d", .dir [("b.txt", .file 9)])] =
      [("/r/.cloudfiles", 5), ("/r/d/b.txt", 9)] := by
    simp [reachableFiles]
  exact (C7_snapshot_is_all_reachable_files "/r"
    [(".cloudfiles", .file 5), ("d", .dir [("b.txt", .file 9)])]
    "/r/.cloudfiles" 5 (by rw [hre]; decide)).mpr (by rw [hre]; decide)

/-! ## Claim C9 — `save_account` overwrites without truncating -/

/-- The accounts table after the read-modify step of `save_account`: the
previous table (empty on parse failure) with the named account merged in. -/
def mergedConfig (parseConfig : String → Option Config) (old : String)
    (account_name : String) (account : Account) : Config :=
  ⟨accountsInsert ((parseConfig old).getD ⟨[]⟩).accounts account_name account⟩

def C9account : Account := ⟨.Onedrive, ⟨"tok", "ref", 3⟩, 5, []⟩

def C9old : String := ⟨List.replicate 200 'x'⟩

set_option maxRecDepth 100000 in
/-- Claim C9 counterexample: with 200 bytes of prior (unparseable) content
and a freshly merged single-account table whose serialisation is 141 bytes
long, the file after `save_account` is the new serialisation **plus 59
leftover bytes of the old content** — it is not the serialisation of the
merged table, so it does not parse back to it (`serde_json` rejects
trailing data).  The codec argument `fun _ => none` records that
`serde_json::from_str::<Config>` fails on a run of `'x'`s. -/
theorem C9_counterexample :
    save_account (fun _ => none) configToJson C9old "a" C9account =
      configToJson ⟨[("a", C9account)]⟩ ++ (⟨List.replicate 59 'x'⟩ : String) ∧
    save_account (fun _ => none) configToJson C9old "a" C9account ≠
      configToJson ⟨[("a", C9account)]⟩ := by
  decide

/-- Claim C9, amended: `save_account` performs the whole-file
read-modify-write **without truncation**: the resulting file contents are
the serialisation of the merged table followed by whatever bytes of the
previous content lie beyond its length; the file is exactly the merged
table's serialisation only when the previous content is no longer than
the new serialisation. -/
theorem C9_save_account_no_truncate (parseConfig : String → Option Config)
    (serConfig : Config → String) (old account_name : String) (a : Account) :
    (save_account parseConfig serConfig old account_name a).data =
      (serConfig (mergedConfig parseConfig old account_name a)).data ++
        old.data.drop
          (serConfig (mergedConfig parseConfig old account_name a)).data.length ∧
    (old.data.length ≤
        (serConfig (mergedConfig parseConfig old account_name a)).data.length →
      save_account parseConfig serConfig old account_name a =
        serConfig (mergedConfig parseConfig old account_name a)) := by
  constructor
  · rfl
  · intro hle
    show (⟨write_all_at old.data
      (serConfig (mergedConfig parseConfig old account_name a)).data⟩ : String) = _
    rw [write_all_at, List.drop_eq_nil_of_le hle, List.append_nil]

set_option maxRecDepth 100000 in
/-- Witness for C9's amended statement: with empty prior content the saved
file is exactly the serialised merged table. -/
theorem C9_save_account_no_truncate_witness :
    save_account (fun _ => none) configToJson "" "a" C9account =
      configToJson (mergedConfig (fun _ => none) "" "a" C9account) :=
  (C9_save_account_no_truncate (fun _ => none) configToJson "" "a" C9account).2
    (by decide)

/-! ## Claim C10 — the `rsplit_once("/").unwrap()` precondition -/

theorem rsplitOnceChar_eq_none_iff (c : Char) (l : List Char) :
    rsplitOnceChar c l = none ↔ c ∉ l := by
  induction l with
  | nil => simp [rsplitOnceChar]
  | cons x xs ih =>
    simp only [rsplitOnceChar, List.mem_cons]
    rcases h : rsplitOnceChar c xs with _ | ⟨l', r'⟩
    · have hx : c ∉ xs := (ih).mp h
      by_cases hc : x = c
      · simp [hc]
      · simp only [if_neg hc]
        constructor
        · intro _ hmem
          rcases hmem with hmem | hmem
          · exact hc hmem.symm
          · exact hx hmem
        · intro _
          trivial
    · simp only []
      constructor
      · intro hnone
        exact absurd hnone (by simp)
      · intro hmem
        have : c ∈ xs := by
          by_contra hcx
          rw [(ih).mpr hcx] at h
          exact absurd h (by simp)
        exact absurd (Or.inr this) hmem

def C10env : Env :=
  { ts := fun _ => 100, refresh := none,
    feed := fun _ => ([⟨⟨"afile", 5⟩, .CreatedOrModifiled⟩], none),
    download := fun _ => some "", upload := fun _ _ => some "id",
    readFile := fun _ => some "", delete_ok := fun _ => true,
    remove_ok := fun _ => true, mkdir_ok := fun _ => true,
    fswrite_ok := fun _ => true, truncate_ok := true,
    write_line_ok := fun _ => true, save_ok := true }

/-- Claim C10: (i) every delta entry produced by the OneDrive adapter has a
`'/'` in its relative path (src/onedrive.rs:240-245 always prepends one);
(ii) for any delta entry that passes the `last_synced` filter but has no
`'/'` in its path, the engine's `rsplit_once("/").unwrap()`
(src/lib.rs:358) panics — the run neither returns `Ok` nor `Err`; (iii) a
whole reconciliation run on such a batch is a panic, witnessed concretely. -/
theorem C10_slash_precondition :
    (∀ item : OneDriveItem, ∀ d : DriveDelta, itemToDelta item = .conv d →
      '/' ∈ d.file.file_path.data) ∧
    (∀ (env : Env) (fresh : Bool) (last_synced : Nat) (folder : String)
        (st : SyncSt) (d : DriveDelta),
      '/' ∉ d.file.file_path.data → last_synced < d.file.last_modified →
      applyDelta env fresh last_synced folder st d = .crash) ∧
    sync_files C10env ⟨.Onedrive, ⟨"t", "r", 1000⟩, 0, []⟩ "/r" false "" [] =
      .crash := by
  refine ⟨?_, ?_, by decide⟩
  · intro item d hconv
    unfold itemToDelta at hconv
    by_cases hf : item.folder.isSome
    · simp [hf] at hconv
    · by_cases hn : item.name.isNone
      · simp [hf, hn] at hconv
      · by_cases he : item.name.getD "" = ""
        · simp [hf, hn, he] at hconv
        · rcases hlm : item.lastModifiedDateTime with _ | s
          · simp [hf, hn, he, hlm] at hconv
          · rcases hp : parse_iso_date s with _ | lm
            · simp [hf, hn, he, hlm, hp] at hconv
            · rcases hpr : item.parentReference.path with _ | parent <;>
              · simp only [hf, hn, he, hlm, hp, hpr, if_false, if_neg,
                  Bool.false_eq_true, ite_false] at hconv
                cases hconv
                simp [String.data]
  · intro env fresh last_synced folder st d hslash hlm
    have hns : ¬ d.file.last_modified ≤ last_synced := Nat.not_le.mpr hlm
    have hrs : rsplitOnceChar '/' d.file.file_path.data = none :=
      (rsplitOnceChar_eq_none_iff '/' d.file.file_path.data).mpr hslash
    simp [applyDelta, hns, hrs]

/-- Witness for C10 at concrete inputs: a converted item's path contains
`'/'`, and a pathless non-skipped entry makes the delta step panic. -/
theorem C10_slash_precondition_witness :
    '/' ∈ ("/b.txt" : String).data ∧
    applyDelta C10env false 0 "/r"
      ⟨1, [], [], 0, 0, 0, 0, [], [], [], []⟩ ⟨⟨"afile", 5⟩, .CreatedOrModifiled⟩ =
      .crash := by
  constructor
  · exact C10_slash_precondition.1
      ⟨"id1", some "b.txt", ⟨none⟩, some "2023-08-06T13:23:00Z", none, none, none⟩
      ⟨⟨"/b.txt", 1691328180⟩, .CreatedOrModifiled⟩ (by decide)
  · exact C10_slash_precondition.2.1 C10env false 0 "/r"
      ⟨1, [], [], 0, 0, 0, 0, [], [], [], []⟩ ⟨⟨"afile", 5⟩, .CreatedOrModifiled⟩
      (by decide) (by decide)

/-! ## Claim C4 — a failed SyncState commit never advances `last_synced` -/

theorem commitLines_ok_eq (env : Env) (m : List (String × Nat)) :
    ∀ (i : Nat) (acc c : String), commitLines env i acc m = .ok c →
      c = m.foldl (fun a kv => a ++ natToString kv.2 ++ ":" ++ kv.1 ++ "\n") acc := by
  induction m with
  | nil =>
    intro i acc c h
    cases h
    simp
  | cons kv rest ih =>
    intro i acc c h
    obtain ⟨k, v⟩ := kv
    unfold commitLines at h
    split at h
    · exact ih _ _ _ h
    · cases h

theorem commitStage_ok_inv (env : Env) (account : Account) (st : SyncSt)
    (r : SyncResult) (h : commitStage env account st = .ok r) :
    env.truncate_ok = true ∧ env.save_ok = true ∧
    r = ⟨{ st with clock := st.clock + 1 },
         { account with last_synced := env.ts st.clock },
         serializeCloudfiles st.cloudfiles⟩ := by
  unfold commitStage at h
  split at h
  · rename_i htr
    split at h
    · cases h
    · rename_i content hcl
      split at h
      · rename_i hsave
        cases h
        refine ⟨htr, hsave, ?_⟩
        have := commitLines_ok_eq env st.cloudfiles 0 "" content hcl
        simp only [serializeCloudfiles]
        rw [this]
      · cases h
  · cases h

theorem commitStage_err_inv (env : Env) (account : Account) (st : SyncSt)
    (e : String) (a : Account) (h : commitStage env account st = .err e a) :
    a = account ∨
      (env.save_ok = false ∧ a = { account with last_synced := env.ts st.clock }) := by
  unfold commitStage at h
  split at h
  · split at h
    · cases h
      exact Or.inl rfl
    · split at h
      · cases h
      · rename_i hsave
        cases h
        exact Or.inr ⟨Bool.not_eq_true _ ▸ Bool.of_not_eq_true hsave, rfl⟩
  · cases h
    exact Or.inl rfl

theorem phasesStage_ok_inv (env : Env) (folder : String) (fresh : Bool)
    (account : Account) (st : SyncSt) (deltas : List DriveDelta)
    (r : SyncResult) (h : phasesStage env folder fresh account st deltas = .ok r) :
    ∃ stA stB stC,
      runFold (applyDelta env fresh account.last_synced folder) st deltas = .ok stA ∧
      runFold (uploadStep env account.last_synced folder) stA stA.local_files = .ok stB ∧
      runFold (deleteStep env folder) stB stB.cloudfiles = .ok stC ∧
      commitStage env account stC = .ok r := by
  unfold phasesStage at h
  split at h
  · cases h
  · cases h
  · rename_i stA hA
    split at h
    · cases h
    · cases h
    · rename_i stB hB
      split at h
      · cases h
      · cases h
      · rename_i stC hC
        exact ⟨stA, stB, stC, hA, hB, hC, h⟩

theorem phasesStage_err_inv (env : Env) (folder : String) (fresh : Bool)
    (account : Account) (st : SyncSt) (deltas : List DriveDelta)
    (e : String) (a : Account)
    (h : phasesStage env folder fresh account st deltas = .err e a) :
    a = account ∨ ∃ stC, commitStage env account stC = .err e a := by
  unfold phasesStage at h
  split at h
  · cases h
    exact Or.inl rfl
  · cases h
  · split at h
    · cases h
      exact Or.inl rfl
    · cases h
    · split at h
      · cases h
        exact Or.inl rfl
      · cases h
      · exact Or.inr ⟨_, h⟩

theorem tokenStage_some_inv (env : Env) (account b : Account)
    (h : tokenStage env account = some b) :
    b.last_synced = account.last_synced ∧ b.attributes = account.attributes ∧
      b.service = account.service := by
  simp only [tokenStage] at h
  split at h
  · split at h
    · cases h
      exact ⟨rfl, rfl, rfl⟩
    · cases h
  · cases h
    exact ⟨rfl, rfl, rfl⟩

theorem get_drive_delta_last_synced (env : Env) (a : Account) :
    ((get_drive_delta env a).2).last_synced = a.last_synced := by
  unfold get_drive_delta
  rcases h : env.feed (delta_link_of a.attributes) with ⟨deltas, nl⟩
  cases nl <;> rfl

theorem freshReset_last_synced (a : Account) (fresh : Bool) :
    (freshReset a fresh).last_synced = if fresh then 0 else a.last_synced := by
  cases fresh <;> rfl

/-- Claim C4: (i) a successful run implies the truncation succeeded, every
state-file line was written (the run's file contents are exactly the
serialised SyncState), the returned account's `last_synced` is the
commit-time `now()` (the clock value read just before handing the account
back), and the account save was reached; (ii) on **every** `Err` exit path
(commit failure included; the only error after the `last_synced`
assignment is the account save itself, excluded here by `env.save_ok`),
the account's `last_synced` still holds its pre-run value — the original
one, or `0` if this was a fresh run. -/
theorem C4_commit_gates_last_synced (env : Env) (account : Account)
    (folder : String) (fresh : Bool) (contents : String) (scan : StrMap) :
    (∀ r, sync_files env account folder fresh contents scan = .ok r →
      env.truncate_ok = true ∧ env.save_ok = true ∧
      r.file_content = serializeCloudfiles r.st.cloudfiles ∧
      r.account.last_synced = env.ts (r.st.clock - 1)) ∧
    (env.save_ok = true →
      ∀ e a, sync_files env account folder fresh contents scan = .err e a →
        a.last_synced = account.last_synced ∨ (fresh = true ∧ a.last_synced = 0)) := by
  constructor
  · intro r hok
    simp only [sync_files] at hok
    split at hok
    · cases hok
    · rename_i b hb
      split at hok
      · cases hok
      · split at hok
        · cases hok
        · rcases hgd : get_drive_delta env (freshReset b fresh) with ⟨deltas, account2⟩
          rw [hgd] at hok
          obtain ⟨_, _, stC, _, _, _, hcommit⟩ :=
            phasesStage_ok_inv _ _ _ _ _ _ _ hok
          obtain ⟨htr, hsave, hr⟩ := commitStage_ok_inv _ _ _ _ hcommit
          subst hr
          exact ⟨htr, hsave, rfl, rfl⟩
  · intro hsaveok e a herr
    have hfr : ∀ b : Account, tokenStage env account = some b →
        (freshReset b fresh).last_synced = account.last_synced ∨
          (fresh = true ∧ (freshReset b fresh).last_synced = 0) := by
      intro b hb
      have hbls := (tokenStage_some_inv env account b hb).1
      rw [freshReset_last_synced]
      cases fresh with
      | false => exact Or.inl (by simpa using hbls)
      | true => exact Or.inr ⟨rfl, by simp⟩
    simp only [sync_files] at herr
    split at herr
    · cases herr
      exact Or.inl rfl
    · rename_i b hb
      split at herr
      · cases herr
        exact hfr b hb
      · split at herr
        · cases herr
          exact hfr b hb
        · rcases hgd : get_drive_delta env (freshReset b fresh) with ⟨deltas, account2⟩
          rw [hgd] at herr
          have hls2 : account2.last_synced = (freshReset b fresh).last_synced := by
            have h2 := get_drive_delta_last_synced env (freshReset b fresh)
            rw [hgd] at h2
            exact h2
          rcases phasesStage_err_inv _ _ _ _ _ _ _ _ herr with ha | ⟨stC, hc⟩
          · subst ha
            rw [hls2]
            exact hfr b hb
          · rcases commitStage_err_inv _ _ _ _ _ hc with ha | ⟨hs, _⟩
            · subst ha
              rw [hls2]
              exact hfr b hb
            · rw [hsaveok] at hs
              cases hs

/-- Witness for C4 at concrete inputs: with `set_len(0)` failing, the run
errors and `last_synced` keeps its pre-run value `7`; the hypothesis of
part (ii) is discharged with `save_ok = true`. -/
theorem C4_commit_gates_last_synced_witness :
    ((({ ts := fun _ => 100, refresh := none, feed := fun _ => ([], none),
         download := fun _ => some "", upload := fun _ _ => some "id",
         readFile := fun _ => some "", delete_ok := fun _ => true,
         remove_ok := fun _ => true, mkdir_ok := fun _ => true,
         fswrite_ok := fun _ => true, truncate_ok := false,
         write_line_ok := fun _ => true, save_ok := true } : Env)).truncate_ok = false) ∧
    (⟨.Onedrive, ⟨"t", "r", 1000⟩, 7, []⟩ : Account).last_synced = 7 := by
  constructor
  · rfl
  · have h := (C4_commit_gates_last_synced
      { ts := fun _ => 100, refresh := none, feed := fun _ => ([], none),
        download := fun _ => some "", upload := fun _ _ => some "id",
        readFile := fun _ => some "", delete_ok := fun _ => true,
        remove_ok := fun _ => true, mkdir_ok := fun _ => true,
        fswrite_ok := fun _ => true, truncate_ok := false,
        write_line_ok := fun _ => true, save_ok := true }
      ⟨.Onedrive, ⟨"t", "r", 1000⟩, 7, []⟩ "/r" false "" []).2 rfl
      "Cannot write to file" ⟨.Onedrive, ⟨"t", "r", 1000⟩, 7, []⟩ (by decide)
    rcases h with h | h
    · exact h
    · exact absurd h.1 (by decide)

/-! ## Claim C3 — fresh-sync semantics -/

theorem string_append_left_cancel (folder q p : String)
    (h : folder ++ q = folder ++ p) : q = p := by
  apply String.ext
  have hd : folder.data ++ q.data = folder.data ++ p.data := congrArg String.data h
  exact List.append_cancel_left hd

theorem freshCleanup_error (env : Env) :
    ∀ (scan : List (String × Nat)) (acc : List String),
      (∃ pv ∈ scan, env.remove_ok pv.1 = false) →
      freshCleanup env scan acc = .error "Cannot remove file" := by
  intro scan
  induction scan with
  | nil =>
    intro acc h
    obtain ⟨pv, hpv, _⟩ := h
    cases hpv
  | cons kv rest ih =>
    intro acc h
    obtain ⟨k, v⟩ := kv
    unfold freshCleanup
    by_cases hk : env.remove_ok k = true
    · rw [if_pos hk]
      apply ih
      obtain ⟨pv, hpv, hfail⟩ := h
      rcases List.mem_cons.mp hpv with rfl | hpv
      · rw [hk] at hfail
        cases hfail
      · exact ⟨pv, hpv, hfail⟩
    · rw [if_neg hk]

theorem freshCleanup_ok (env : Env) :
    ∀ (scan : List (String × Nat)) (acc : List String),
      (∀ pv ∈ scan, env.remove_ok pv.1 = true) →
      freshCleanup env scan acc = .ok (acc ++ StrMap.keys scan) := by
  intro scan
  induction scan with
  | nil =>
    intro acc _
    simp [freshCleanup]
  | cons kv rest ih =>
    intro acc h
    obtain ⟨k, v⟩ := kv
    have hk : env.remove_ok k = true := h (k, v) (List.mem_cons_self _ _)
    unfold freshCleanup
    rw [if_pos hk, ih (acc ++ [k]) (fun pv hpv => h pv (List.mem_cons_of_mem _ hpv))]
    simp

/-- One Phase-A step in fresh mode: the untracked-local invariant is
preserved, download calls only grow, and a non-skipped
`CreatedOrModified` entry always contributes its path to the download
calls. -/
theorem applyDelta_fresh_step (env : Env) (folder : String)
    (hts : ∀ k, 1 ≤ env.ts k) (st st' : SyncSt) (d : DriveDelta)
    (h : applyDelta env true 0 folder st d = .ok st')
    (hinv : ∀ q, (folder ++ q) ∈ StrMap.keys st.local_files →
      q ∈ st.download_calls) :
    (∀ q, (folder ++ q) ∈ StrMap.keys st'.local_files → q ∈ st'.download_calls) ∧
    (∀ c ∈ st.download_calls, c ∈ st'.download_calls) ∧
    (d.delta_type = .CreatedOrModifiled → 1 ≤ d.file.last_modified →
      d.file.file_path ∈ st'.download_calls) := by
  obtain ⟨⟨path, lm⟩, ty⟩ := d
  unfold applyDelta at h
  dsimp only at h ⊢
  by_cases hskip : lm ≤ 0
  · rw [if_pos hskip] at h
    cases h
    refine ⟨hinv, fun c hc => hc, fun _ hlm => ?_⟩
    omega
  · rw [if_neg hskip] at h
    rcases hrs : rsplitOnceChar '/' path.data with _ | ⟨fc, rest⟩
    · rw [hrs] at h
      cases h
    · rw [hrs] at h
      simp only [reduceIte] at h
      cases ty with
      | Deleted =>
        dsimp only at h
        by_cases hlc : (st.local_files.get? (folder ++ path)).getD 0 < env.ts st.clock
        · rw [if_pos hlc] at h
          by_cases hrm : env.remove_ok (folder ++ path) = true
          · rw [if_pos hrm] at h
            cases h
            exact ⟨fun q hq => hinv q (StrMap.keys_remove_sub _ _ _ hq),
                   fun c hc => hc, fun hco _ => by cases hco⟩
          · rw [if_neg hrm] at h
            cases h
            exact ⟨hinv, fun c hc => hc, fun hco _ => by cases hco⟩
        · rw [if_neg hlc] at h
          cases h
          exact ⟨hinv, fun c hc => hc, fun hco _ => by cases hco⟩
      | CreatedOrModifiled =>
        dsimp only at h
        by_cases hlc : (st.local_files.get? (folder ++ path)).getD 0 < env.ts st.clock
        · rw [if_pos hlc] at h
          by_cases hmk : env.mkdir_ok (folder ++ "/" ++ (⟨fc⟩ : String)) = true
          · rw [if_pos hmk] at h
            rcases hdl : env.download path with _ | contents
            · rw [hdl] at h
              cases h
              exact ⟨fun q hq => List.mem_append_left _ (hinv q hq),
                     fun c hc => List.mem_append_left _ hc,
                     fun _ _ => List.mem_append_right _ (List.mem_singleton_self _)⟩
            · rw [hdl] at h
              by_cases hfw : env.fswrite_ok (folder ++ path) = true
              · rw [if_pos hfw] at h
                cases h
                refine ⟨?_, fun c hc => List.mem_append_left _ hc,
                        fun _ _ => List.mem_append_right _ (List.mem_singleton_self _)⟩
                intro q hq
                rcases (StrMap.mem_keys_insert_iff _ _ _ _).mp hq with hq | hq
                · exact List.mem_append_left _ (hinv q hq)
                · have : q = path := string_append_left_cancel folder q path hq
                  subst this
                  exact List.mem_append_right _ (List.mem_singleton_self _)
              · rw [if_neg hfw] at h
                cases h
          · rw [if_neg hmk] at h
            cases h
        · rw [if_neg hlc] at h
          cases h
          refine ⟨hinv, fun c hc => hc, fun _ _ => ?_⟩
          have h1 : 1 ≤ env.ts st.clock := hts st.clock
          have hge : 1 ≤ (st.local_files.get? (folder ++ path)).getD 0 := by
            omega
          rcases hg : st.local_files.get? (folder ++ path) with _ | v
          · rw [hg] at hge
            simp at hge
          · have hmem : (folder ++ path) ∈ StrMap.keys st.local_files := by
              rw [StrMap.mem_keys_iff_get?, hg]
              rfl
            exact hinv _ hmem

theorem phaseA_fresh_fold (env : Env) (folder : String)
    (hts : ∀ k, 1 ≤ env.ts k) :
    ∀ (deltas : List DriveDelta) (st st' : SyncSt),
      runFold (applyDelta env true 0 folder) st deltas = .ok st' →
      (∀ q, (folder ++ q) ∈ StrMap.keys st.local_files →
        q ∈ st.download_calls) →
      ((∀ q, (folder ++ q) ∈ StrMap.keys st'.local_files →
          q ∈ st'.download_calls) ∧
       (∀ c ∈ st.download_calls, c ∈ st'.download_calls) ∧
       (∀ d ∈ deltas, d.delta_type = .CreatedOrModifiled →
          1 ≤ d.file.last_modified → d.file.file_path ∈ st'.download_calls)) := by
  intro deltas
  induction deltas with
  | nil =>
    intro st st' h hinv
    cases h
    exact ⟨hinv, fun c hc => hc, fun d hd => by cases hd⟩
  | cons d rest ih =>
    intro st st' h hinv
    unfold runFold at h
    rcases hstep : applyDelta env true 0 folder st d with st1 | e | _ <;> rw [hstep] at h
    · obtain ⟨hinv1, hmono1, hd1⟩ :=
        applyDelta_fresh_step env folder hts st st1 d hstep hinv
      obtain ⟨hinv2, hmono2, hrest⟩ := ih st1 st' h hinv1
      refine ⟨hinv2, fun c hc => hmono2 c (hmono1 c hc), ?_⟩
      intro x hx hty hlm
      rcases List.mem_cons.mp hx with rfl | hx
      · exact hmono2 _ (hd1 hty hlm)
      · exact hrest x hx hty hlm
    · cases h
    · cases h

theorem uploadStep_pres_calls (env : Env) (ls : Nat) (folder : String)
    (st st' : SyncSt) (x : String × Nat) (h : uploadStep env ls folder st x = .ok st') :
    st'.download_calls = st.download_calls ∧ st'.local_files = st.local_files := by
  simp only [uploadStep] at h
  split at h
  · split at h
    · split at h
      · cases h
        exact ⟨rfl, rfl⟩
      · cases h
        exact ⟨rfl, rfl⟩
    · cases h
      exact ⟨rfl, rfl⟩
  · cases h
    exact ⟨rfl, rfl⟩

theorem phaseB_pres_calls (env : Env) (ls : Nat) (folder : String) :
    ∀ (l : List (String × Nat)) (st st' : SyncSt),
      runFold (uploadStep env ls folder) st l = .ok st' →
      st'.download_calls = st.download_calls ∧ st'.local_files = st.local_files := by
  intro l
  induction l with
  | nil =>
    intro st st' h
    cases h
    exact ⟨rfl, rfl⟩
  | cons x rest ih =>
    intro st st' h
    unfold runFold at h
    rcases hstep : uploadStep env ls folder st x with st1 | e | _ <;> rw [hstep] at h
    · obtain ⟨h1, h2⟩ := uploadStep_pres_calls env ls folder st st1 x hstep
      obtain ⟨h3, h4⟩ := ih st1 st' h
      exact ⟨h3.trans h1, h4.trans h2⟩
    · cases h
    · cases h

theorem deleteStep_pres_calls (env : Env) (folder : String)
    (st st' : SyncSt) (x : String × Nat) (h : deleteStep env folder st x = .ok st') :
    st'.download_calls = st.download_calls ∧ st'.local_files = st.local_files := by
  simp only [deleteStep] at h
  split at h
  · split at h
    · cases h
      exact ⟨rfl, rfl⟩
    · cases h
      exact ⟨rfl, rfl⟩
  · cases h
    exact ⟨rfl, rfl⟩

theorem phaseC_pres_calls (env : Env) (folder : String) :
    ∀ (l : List (String × Nat)) (st st' : SyncSt),
      runFold (deleteStep env folder) st l = .ok st' →
      st'.download_calls = st.download_calls ∧ st'.local_files = st.local_files := by
  intro l
  induction l with
  | nil =>
    intro st st' h
    cases h
    exact ⟨rfl, rfl⟩
  | cons x rest ih =>
    intro st st' h
    unfold runFold at h
    rcases hstep : deleteStep env folder st x with st1 | e | _ <;> rw [hstep] at h
    · obtain ⟨h1, h2⟩ := deleteStep_pres_calls env folder st st1 x hstep
      obtain ⟨h3, h4⟩ := ih st1 st' h
      exact ⟨h3.trans h1, h4.trans h2⟩
    · cases h
    · cases h

/-- Claim C3: on a fresh run, (i) `last_synced` is reset to `0` and the
attributes (the remote cursor) are cleared; (ii) the persisted SyncState is
never read — the run's outcome is independent of the state file's
contents; (iii) a filesystem error while deleting any scanned file aborts
the run; (iv) when all removals succeed, every file of the LocalSnapshot
is deleted from disk and Phase A starts from the empty snapshot; (v) the
delta fetch uses the provider's root link (the cursor was discarded); and
(vi) on a successful run with positive wall-clock values, every
non-skipped `CreatedOrModified` entry of the fetched batch is downloaded
regardless of its own timestamp. -/
theorem C3_fresh_semantics (env : Env) (account b : Account)
    (folder raw raw' : String) (scan : StrMap)
    (hb : tokenStage env account = some b) :
    (freshReset b true).last_synced = 0 ∧
    (freshReset b true).attributes = [] ∧
    sync_files env account folder true raw scan =
      sync_files env account folder true raw' scan ∧
    ((∃ pv ∈ scan, env.remove_ok pv.1 = false) →
      sync_files env account folder true raw scan =
        .err "Cannot remove file" (freshReset b true)) ∧
    ((∀ pv ∈ scan, env.remove_ok pv.1 = true) →
      freshCleanup env scan [] = .ok (StrMap.keys scan) ∧
      cleanupStage env true scan = .ok []) ∧
    (get_drive_delta env (freshReset b true)).1 = (env.feed root_delta_link).1 ∧
    (∀ r, sync_files env account folder true raw scan = .ok r →
      (∀ k, 1 ≤ env.ts k) →
      ∀ d ∈ (env.feed root_delta_link).1, d.delta_type = .CreatedOrModifiled →
        1 ≤ d.file.last_modified → d.file.file_path ∈ r.st.download_calls) := by
  have hroot : delta_link_of (freshReset b true).attributes = root_delta_link := rfl
  refine ⟨rfl, rfl, ?_, ?_, ?_, ?_, ?_⟩
  · simp [sync_files, loadStage]
  · intro hfail
    simp only [sync_files, hb]
    have : cleanupStage env true scan = .error "Cannot remove file" := by
      unfold cleanupStage
      rw [if_pos rfl, freshCleanup_error env scan [] hfail]
      rfl
    rw [this]
    simp [loadStage]
  · intro hall
    have h1 := freshCleanup_ok env scan [] hall
    refine ⟨by simpa using h1, ?_⟩
    unfold cleanupStage
    rw [if_pos rfl, h1]
    rfl
  · unfold get_drive_delta
    rw [hroot]
    rcases h : env.feed root_delta_link with ⟨deltas, nl⟩
    cases nl <;> rfl
  · intro r hok hts d hd hty hlm
    simp only [sync_files, hb] at hok
    have hload : loadStage true raw = .ok [] := rfl
    rw [hload] at hok
    rcases hcl : cleanupStage env true scan with e | local0 <;> rw [hcl] at hok
    · cases hok
    · have hl0 : local0 = [] := by
        unfold cleanupStage at hcl
        rw [if_pos rfl] at hcl
        rcases hfc : freshCleanup env scan [] with e' | tr <;> rw [hfc] at hcl
        · cases hcl
        · cases hcl
          rfl
      subst hl0
      rcases hgd : get_drive_delta env (freshReset b true) with ⟨deltas, account2⟩
      rw [hgd] at hok
      have hdeltas : deltas = (env.feed root_delta_link).1 := by
        unfold get_drive_delta at hgd
        rw [hroot] at hgd
        rcases h : env.feed root_delta_link with ⟨ds, nl⟩
        rw [h] at hgd
        cases nl <;> · cases hgd; rfl
      have hls2 : account2.last_synced = 0 := by
        have h2 := get_drive_delta_last_synced env (freshReset b true)
        rw [hgd] at h2
        exact h2
      obtain ⟨stA, stB, stC, hA, hB, hC, hcommit⟩ :=
        phasesStage_ok_inv _ _ _ _ _ _ _ hok
      rw [hls2] at hA
      obtain ⟨_, _, hr⟩ := commitStage_ok_inv _ _ _ _ hcommit
      obtain ⟨_, hmonoA, hdl⟩ :=
        phaseA_fresh_fold env folder hts deltas (initialSt [] []) stA hA
          (by intro q hq; cases hq)
      have hBc := (phaseB_pres_calls env account2.last_synced folder
        stA.local_files stA stB hB).1
      have hCc := (phaseC_pres_calls env folder stB.cloudfiles stB stC hC).1
      subst hr
      show d.file.file_path ∈ stC.download_calls
      rw [hCc, hBc]
      exact hdl d (hdeltas ▸ hd) hty hlm

/-- Witness for C3 at concrete inputs: one scanned local file, a valid
token (`tokenStage` is the identity), and one remote file with timestamp
`5`: the run deletes the local file, fetches from the root link, and
downloads the remote file. -/
theorem C3_fresh_semantics_witness :
    (freshReset ⟨.Onedrive, ⟨"t", "r", 1000⟩, 7, [("delta_link", "L")]⟩ true).last_synced = 0 ∧
    freshCleanup C10env [("/r/old.txt", 4)] [] = .ok ["/r/old.txt"] := by
  have h := C3_fresh_semantics C10env
    ⟨.Onedrive, ⟨"t", "r", 1000⟩, 7, [("delta_link", "L")]⟩
    ⟨.Onedrive, ⟨"t", "r", 1000⟩, 7, [("delta_link", "L")]⟩
    "/r" "" "" [("/r/old.txt", 4)] (by decide)
  exact ⟨h.1, (h.2.2.2.2.1 (by decide)).1⟩

/-! ## Claim C8 — the timestamp codec -/

theorem valDigits_all_digits :
    ∀ (l : List Char) (a v : Nat), valDigits l a = some v →
      ∀ c ∈ l, c.isDigit = true := by
  intro l
  induction l with
  | nil => intro a v _ c hc; cases hc
  | cons x xs ih =>
    intro a v h c hc
    unfold valDigits at h
    split at h
    · rcases List.mem_cons.mp hc with rfl | hc
      · assumption
      · exact ih _ v h c hc
    · cases h

theorem parseU64Chars_chars (cs : List Char) (v : Nat)
    (h : parseU64Chars cs = some v) :
    ∀ c ∈ cs, c.isDigit = true ∨ c = '+' := by
  intro c hc
  unfold parseU64Chars at h
  rcases cs with _ | ⟨c0, rest⟩
  · cases hc
  · dsimp only at h
    by_cases h0 : c0 = '+'
    · subst h0
      rw [if_pos rfl] at h
      rcases hre : rest with _ | ⟨c1, rest1⟩ <;> rw [hre] at h
      · cases h
      · rcases hv : valDigits (c1 :: rest1) 0 with _ | w <;> rw [hv] at h
        · cases h
        · rcases List.mem_cons.mp hc with rfl | hc
          · exact Or.inr rfl
          · exact Or.inl (valDigits_all_digits _ 0 w hv c (hre ▸ hc))
    · rw [if_neg h0] at h
      rcases hv : valDigits (c0 :: rest) 0 with _ | w <;> rw [hv] at h
      · cases h
      · exact Or.inl (valDigits_all_digits _ 0 w hv c hc)

theorem parseU64Chars_not_mem (cs : List Char) (v : Nat)
    (h : parseU64Chars cs = some v) (c0 : Char)
    (h0 : c0.isDigit = false) (h0' : c0 ≠ '+') : c0 ∉ cs := by
  intro hmem
  rcases parseU64Chars_chars cs v h c0 hmem with hd | hp
  · rw [h0] at hd
    cases hd
  · exact h0' hp

theorem splitOnceChar_append (c : Char) (ys : List Char) :
    ∀ xs : List Char, c ∉ xs →
      splitOnceChar c (xs ++ c :: ys) = some (xs, ys) := by
  intro xs
  induction xs with
  | nil =>
    intro _
    simp [splitOnceChar]
  | cons x rest ih =>
    intro h
    have hx : ¬ x = c := fun hh => h (hh ▸ List.mem_cons_self _ _)
    have hrest : c ∉ rest := fun hh => h (List.mem_cons_of_mem _ hh)
    simp only [List.cons_append, splitOnceChar, if_neg hx, List.append_eq, ih hrest]

theorem splitChar_no_sep (c : Char) :
    ∀ xs : List Char, c ∉ xs → splitChar c xs = [xs] := by
  intro xs
  induction xs with
  | nil => intro _; rfl
  | cons x rest ih =>
    intro h
    have hx : ¬ x = c := fun hh => h (hh ▸ List.mem_cons_self _ _)
    have hrest : c ∉ rest := fun hh => h (List.mem_cons_of_mem _ hh)
    simp only [splitChar, if_neg hx, ih hrest]

theorem splitChar_append (c : Char) (ys : List Char) :
    ∀ xs : List Char, c ∉ xs →
      splitChar c (xs ++ c :: ys) = xs :: splitChar c ys := by
  intro xs
  induction xs with
  | nil =>
    intro _
    simp [splitChar]
  | cons x rest ih =>
    intro h
    have hx : ¬ x = c := fun hh => h (hh ▸ List.mem_cons_self _ _)
    have hrest : c ∉ rest := fun hh => h (List.mem_cons_of_mem _ hh)
    rw [List.cons_append]
    show (if x = c then _ else _) = _
    rw [if_neg hx, ih hrest]

theorem yearLoop_closed :
    ∀ (n s a : Nat),
      (List.range' s n).foldl (fun acc y => acc + days_per_year y) a =
        a + ∑ i in Finset.Ico s (s + n), days_per_year i := by
  intro n
  induction n with
  | zero => intro s a; simp
  | succ n ih =>
    intro s a
    have hr : List.range' s (n + 1) = s :: List.range' (s + 1) n := rfl
    rw [hr, List.foldl_cons, ih (s + 1) (a + days_per_year s),
        Finset.sum_eq_sum_Ico_succ_bot (by omega : s < s + (n + 1))]
    have : s + 1 + n = s + (n + 1) := by omega
    rw [this]
    omega

theorem monthLoop_closed (y : Nat) :
    ∀ (n s a : Nat), (∀ j, s ≤ j → j < s + n → (days_per_month j y).isSome) →
      (List.range' s n).foldl (monthStep y) (some a) =
        some (a + ∑ j in Finset.Ico s (s + n), (days_per_month j y).getD 0) := by
  intro n
  induction n with
  | zero => intro s a _; simp
  | succ n ih =>
    intro s a hall
    have hr : List.range' s (n + 1) = s :: List.range' (s + 1) n := rfl
    have hs : (days_per_month s y).isSome :=
      hall s (Nat.le_refl s) (by omega)
    rcases hds : days_per_month s y with _ | ds
    · rw [hds] at hs
      cases hs
    · have hstep : monthStep y (some a) s = some (a + ds) := by
        simp [monthStep, hds]
      rw [hr, List.foldl_cons, hstep,
          ih (s + 1) (a + ds) (fun j h1 h2 => hall j (by omega) (by omega)),
          Finset.sum_eq_sum_Ico_succ_bot (by omega : s < s + (n + 1))]
      have h1 : s + 1 + n = s + (n + 1) := by omega
      rw [h1, hds]
      simp [Nat.add_assoc]

theorem days_per_month_isSome (j y : Nat) (h1 : 1 ≤ j) (h2 : j ≤ 12) :
    (days_per_month j y).isSome := by
  interval_cases j <;> simp [days_per_month]

theorem string_data_append (a b : String) : (a ++ b).data = a.data ++ b.data := rfl

set_option maxRecDepth 2000 in
/-- Claim C8: the timestamp codec decodes `2023-08-06T13:23:00Z` to exactly
`1691328180`; its leap years are exactly the years divisible by 4 but not
by 100 unless also by 400 (February then has 29 days, and
`2024-02-29T00:00:00Z` decodes exactly `86400` seconds after
`2024-02-28T00:00:00Z`); and on every well-formed UTC date-time string
(decimal tokens, two-digit seconds) the decoded value is
`(Σ days-per-year over 1970..year + Σ days-per-month over the full months
+ (day − 1)) · 86400 + h·3600 + min·60 + s`.  (Bounds such as `y ≤ 9999`
keep every intermediate value far below `2^64`, where `Nat` models `u64`
exactly.) -/
theorem C8_timestamp_codec :
    parse_iso_date "2023-08-06T13:23:00Z" = some 1691328180 ∧
    (∀ y, days_per_year y = 366 ↔ ((y % 4 = 0 ∧ y % 100 ≠ 0) ∨ y % 400 = 0)) ∧
    (∀ y, days_per_month 2 y =
      some (if (y % 4 = 0 ∧ y % 100 ≠ 0) ∨ y % 400 = 0 then 29 else 28)) ∧
    parse_iso_date "2024-02-28T00:00:00Z" = some 1709078400 ∧
    parse_iso_date "2024-02-29T00:00:00Z" = some (1709078400 + 86400) ∧
    (∀ (sy sm sd sh smi ss : String) (y m d h mi s : Nat),
      parseU64 sy = some y → parseU64 sm = some m → parseU64 sd = some d →
      parseU64 sh = some h → parseU64 smi = some mi → parseU64 ss = some s →
      ss.data.length = 2 →
      1 ≤ m → m ≤ 12 → 1 ≤ d → d ≤ 31 → y ≤ 9999 → h ≤ 23 → mi ≤ 59 → s ≤ 60 →
      parse_iso_date
          (sy ++ "-" ++ sm ++ "-" ++ sd ++ "T" ++ sh ++ ":" ++ smi ++ ":" ++ ss ++ "Z") =
        some ((((∑ i in Finset.Ico 1970 y, days_per_year i) +
                (∑ j in Finset.Ico 1 m, (days_per_month j y).getD 0) +
                (d - 1)) * 86400) + h * 3600 + mi * 60 + s)) := by
  refine ⟨by decide, ?_, ?_, by decide, by decide, ?_⟩
  · intro y
    unfold days_per_year
    split
    · simp [*]
    · constructor
      · intro h
        omega
      · intro h
        simp_all
  · intro y
    have hred : days_per_month 2 y = some (if days_per_year y = 365 then 28 else 29) := rfl
    rw [hred]
    unfold days_per_year
    by_cases hleap : (y % 4 = 0 ∧ y % 100 ≠ 0) ∨ y % 400 = 0
    · rw [if_pos hleap, if_pos hleap]
      norm_num
    · rw [if_neg hleap, if_neg hleap]
      norm_num
  · intro sy sm sd sh smi ss y m d h mi s hy hm hd hh hmi hs hss hm1 hm12 hd1 hd31
      hy9999 hh23 hmi59 hs60
    have hTy := parseU64Chars_not_mem sy.data y hy 'T' (by decide) (by decide)
    have hTm := parseU64Chars_not_mem sm.data m hm 'T' (by decide) (by decide)
    have hTd := parseU64Chars_not_mem sd.data d hd 'T' (by decide) (by decide)
    have hDy := parseU64Chars_not_mem sy.data y hy '-' (by decide) (by decide)
    have hDm := parseU64Chars_not_mem sm.data m hm '-' (by decide) (by decide)
    have hDd := parseU64Chars_not_mem sd.data d hd '-' (by decide) (by decide)
    have hCh := parseU64Chars_not_mem sh.data h hh ':' (by decide) (by decide)
    have hCmi := parseU64Chars_not_mem smi.data mi hmi ':' (by decide) (by decide)
    have hCs := parseU64Chars_not_mem ss.data s hs ':' (by decide) (by decide)
    have hdata : (sy ++ "-" ++ sm ++ "-" ++ sd ++ "T" ++ sh ++ ":" ++ smi ++ ":" ++ ss ++ "Z").data
        = (sy.data ++ '-' :: (sm.data ++ '-' :: sd.data)) ++
          'T' :: (sh.data ++ ':' :: (smi.data ++ ':' :: (ss.data ++ ['Z']))) := by
      simp [string_data_append, List.append_assoc]
    have hTdate : 'T' ∉ sy.data ++ '-' :: (sm.data ++ '-' :: sd.data) := by
      simp only [List.mem_append, List.mem_cons]
      rintro (hx | hx | hx | hx | hx)
      · exact hTy hx
      · cases hx
      · exact hTm hx
      · cases hx
      · exact hTd hx
    have hDateSplit : splitChar '-' (sy.data ++ '-' :: (sm.data ++ '-' :: sd.data)) =
        [sy.data, sm.data, sd.data] := by
      rw [splitChar_append '-' _ sy.data hDy, splitChar_append '-' _ sm.data hDm,
          splitChar_no_sep '-' sd.data hDd]
    have hCz : ':' ∉ ss.data ++ ['Z'] := by
      simp only [List.mem_append, List.mem_cons]
      rintro (hx | hx | hx)
      · exact hCs hx
      · cases hx
      · cases hx
    have hTimeSplit : splitChar ':' (sh.data ++ ':' :: (smi.data ++ ':' :: (ss.data ++ ['Z']))) =
        [sh.data, smi.data, ss.data ++ ['Z']] := by
      rw [splitChar_append ':' _ sh.data hCh, splitChar_append ':' _ smi.data hCmi,
          splitChar_no_sep ':' _ hCz]
    have htake : (ss.data ++ ['Z']).take 2 = ss.data := by
      rw [← hss]
      exact List.take_left _ _
    have hlen : ¬ ((ss.data ++ ['Z']).length < 2) := by
      rw [List.length_append, hss]
      omega
    have hmonth : monthDaysLoop m y =
        some (∑ j in Finset.Ico 1 m, (days_per_month j y).getD 0) := by
      unfold monthDaysLoop
      rw [monthLoop_closed y (m - 1) 1 0]
      · have h1 : 1 + (m - 1) = m := by omega
        rw [h1, Nat.zero_add]
      · intro j hj1 hj2
        exact days_per_month_isSome j y hj1 (by omega)
    have hyear : yearDaysLoop y = ∑ i in Finset.Ico 1970 y, days_per_year i := by
      unfold yearDaysLoop
      rw [yearLoop_closed (y - 1970) 1970 0, Nat.zero_add]
      by_cases h70 : 1970 ≤ y
      · have : 1970 + (y - 1970) = y := by omega
        rw [this]
      · have h1 : 1970 + (y - 1970) = 1970 := by omega
        have h2 : Finset.Ico 1970 y = ∅ := by
          apply Finset.Ico_eq_empty
          omega
        rw [h1, h2]
        simp
    have hy' : parseU64Chars sy.data = some y := hy
    have hm' : parseU64Chars sm.data = some m := hm
    have hd' : parseU64Chars sd.data = some d := hd
    have hh' : parseU64Chars sh.data = some h := hh
    have hmi' : parseU64Chars smi.data = some mi := hmi
    have hs' : parseU64Chars ss.data = some s := hs
    unfold parse_iso_date
    rw [hdata, splitOnceChar_append 'T' _ _ hTdate]
    simp only [hDateSplit, hTimeSplit, hy', hm', hd', hh', hmi', if_neg hlen, htake, hs',
      hmonth, hyear]
    refine congrArg some ?_
    ring

/-- Witness for C8's formula clause at the repo's own test vector
`2023-08-06T13:23:00Z`, decomposed into its tokens. -/
theorem C8_timestamp_codec_witness :
    parse_iso_date ("2023" ++ "-" ++ "08" ++ "-" ++ "06" ++ "T" ++ "13" ++ ":" ++ "23" ++ ":" ++ "00" ++ "Z") =
      some ((((∑ i in Finset.Ico 1970 2023, days_per_year i) +
              (∑ j in Finset.Ico 1 8, (days_per_month j 2023).getD 0) +
              (6 - 1)) * 86400) + 13 * 3600 + 23 * 60 + 0) :=
  C8_timestamp_codec.2.2.2.2.2 "2023" "08" "06" "13" "23" "00" 2023 8 6 13 23 0
    (by decide) (by decide) (by decide) (by decide) (by decide) (by decide)
    (by decide) (by decide) (by decide) (by decide) (by decide) (by decide)
    (by decide) (by decide) (by decide)

/-! ## Claim C2 — idempotence of a second run

### Decimal printer correctness (for the state-file round trip) -/

theorem digitChar_isDigit (n : Nat) (h : n < 10) : (digitChar n).isDigit = true := by
  interval_cases n <;> decide

theorem natToCharsGo_chars :
    ∀ (fuel n : Nat) (acc : List Char), ∀ c ∈ natToCharsGo fuel n acc,
      c ∈ acc ∨ c.isDigit = true := by
  intro fuel
  induction fuel with
  | zero => intro n acc c hc; exact Or.inl hc
  | succ fuel ih =>
    intro n acc c hc
    unfold natToCharsGo at hc
    split at hc
    · rcases List.mem_cons.mp hc with rfl | hc
      · exact Or.inr (digitChar_isDigit n (by omega))
      · exact Or.inl hc
    · rcases ih (n / 10) (digitChar (n % 10) :: acc) c hc with hm | hd
      · rcases List.mem_cons.mp hm with rfl | hm
        · exact Or.inr (digitChar_isDigit (n % 10) (Nat.mod_lt _ (by omega)))
        · exact Or.inl hm
      · exact Or.inr hd

theorem natToString_digits (n : Nat) :
    ∀ c ∈ (natToString n).data, c.isDigit = true := by
  intro c hc
  rcases natToCharsGo_chars (n + 1) n [] c hc with hm | hd
  · cases hm
  · exact hd

theorem natToCharsGo_nil_aux :
    ∀ (fuel n : Nat) (acc : List Char), natToCharsGo fuel n acc = [] → acc = [] := by
  intro fuel
  induction fuel with
  | zero => intro n acc h; exact h
  | succ fuel ih =>
    intro n acc h
    unfold natToCharsGo at h
    split at h
    · cases h
    · have := ih (n / 10) (digitChar (n % 10) :: acc) h
      cases this

theorem natToCharsGo_ne_nil (fuel n : Nat) (acc : List Char) :
    natToCharsGo (fuel + 1) n acc ≠ [] := by
  intro h
  unfold natToCharsGo at h
  split at h
  · cases h
  · have := natToCharsGo_nil_aux fuel (n / 10) (digitChar (n % 10) :: acc) h
    cases this

theorem valDigits_cons_digit (n : Nat) (h : n < 10) (cs : List Char) (a : Nat) :
    valDigits (digitChar n :: cs) a = valDigits cs (a * 10 + n) := by
  have hd : (digitChar n).isDigit = true := digitChar_isDigit n h
  have ht : (digitChar n).toNat - 48 = n := by
    interval_cases n <;> decide
  unfold valDigits
  rw [if_pos hd, ht]
  cases cs <;> rfl

/-- `10 ^ (number of decimal digits of n)`. -/
def tenPow (n : Nat) : Nat := 10 ^ (Nat.log 10 n + 1)

theorem tenPow_div (n : Nat) (h : 10 ≤ n) : tenPow n = tenPow (n / 10) * 10 := by
  unfold tenPow
  have h1 : Nat.log 10 (n / 10) = Nat.log 10 n - 1 := Nat.log_div_base 10 n
  have h2 : 0 < Nat.log 10 n := Nat.log_pos (by omega) h
  have h3 : Nat.log 10 (n / 10) + 1 + 1 = Nat.log 10 n + 1 := by omega
  rw [← h3, pow_succ]

theorem natToCharsGo_val (n : Nat) :
    ∀ (fuel : Nat) (acc : List Char) (a : Nat), n < 10 ^ fuel → 1 ≤ fuel →
      valDigits (natToCharsGo fuel n acc) a = valDigits acc (a * tenPow n + n) := by
  induction n using Nat.strong_induction_on with
  | _ n ih =>
    intro fuel acc a hn hfuel
    rcases fuel with _ | fuel
    · omega
    · unfold natToCharsGo
      by_cases h10 : n < 10
      · rw [if_pos h10, valDigits_cons_digit n h10]
        have hlog : Nat.log 10 n = 0 := Nat.log_eq_zero_iff.mpr (Or.inl h10)
        unfold tenPow
        rw [hlog]
        norm_num
      · rw [if_neg h10]
        have hfuel1 : 1 ≤ fuel := by
          by_contra hf
          have : fuel = 0 := by omega
          subst this
          simp at hn
          omega
        have hdiv : n / 10 < 10 ^ fuel := by
          rw [Nat.div_lt_iff_lt_mul (by omega : 0 < 10)]
          have hpow : 10 ^ (fuel + 1) = 10 ^ fuel * 10 := pow_succ 10 fuel
          omega
        rw [ih (n / 10) (by omega) fuel (digitChar (n % 10) :: acc) a hdiv hfuel1,
            valDigits_cons_digit (n % 10) (Nat.mod_lt _ (by omega))]
        rw [tenPow_div n (by omega)]
        congr 1
        calc (a * tenPow (n / 10) + n / 10) * 10 + n % 10
            = a * (tenPow (n / 10) * 10) + (n / 10 * 10 + n % 10) := by ring
          _ = a * (tenPow (n / 10) * 10) + n := by rw [Nat.div_add_mod']

theorem parseU64_natToString (v : Nat) (hv : v < 2 ^ 64) :
    parseU64Chars (natToString v).data = some v := by
  have hval : valDigits (natToString v).data 0 = some v := by
    have h1 : v < 10 ^ (v + 1) := by
      calc v < 10 ^ v := Nat.lt_pow_self (by omega) v
        _ ≤ 10 ^ (v + 1) := Nat.pow_le_pow_right (by omega) (by omega)
    have := natToCharsGo_val v (v + 1) [] 0 h1 (by omega)
    rw [show natToString v = ⟨natToCharsGo (v + 1) v []⟩ from rfl] at *
    simpa [valDigits] using this
  rcases hne : (natToString v).data with _ | ⟨c0, rest⟩
  · exact absurd hne (natToCharsGo_ne_nil v v [])
  · have hc0 : c0.isDigit = true := by
      apply natToString_digits v
      rw [hne]
      exact List.mem_cons_self _ _
    have hplus : ¬ c0 = '+' := by
      intro hh
      rw [hh] at hc0
      cases hc0
    unfold parseU64Chars
    dsimp only
    rw [if_neg hplus]
    dsimp only
    rw [hne] at hval
    rw [hval]
    dsimp only
    rw [if_pos hv]

/-! ### Round trip of the persisted SyncState -/

theorem getLastD_mem {α : Type} (d : α) :
    ∀ l : List α, l ≠ [] → l.getLastD d ∈ l := by
  intro l
  induction l with
  | nil => intro h; cases h rfl
  | cons x xs ih =>
    intro _
    rcases hxs : xs with _ | ⟨y, ys⟩
    · simp [List.getLastD]
    · rw [← hxs]
      have hne : xs ≠ [] := by rw [hxs]; intro hh; cases hh
      have : (x :: xs).getLastD d = xs.getLastD d := by
        rw [hxs]
        rfl
      rw [this]
      exact List.mem_cons_of_mem _ (ih hne)

/-- The char-list contents of one persisted line. -/
def lineChars (kv : String × Nat) : List Char :=
  (natToString kv.2).data ++ ':' :: kv.1.data

/-- Joining lines with `'\n'` terminators. -/
def joinLines (ls : List (List Char)) : List Char :=
  ls.foldr (fun l r => l ++ '\n' :: r) []

theorem serializeCloudfiles_data :
    ∀ (m : StrMap) (acc : String),
      (m.foldl (fun a kv => a ++ natToString kv.2 ++ ":" ++ kv.1 ++ "\n") acc).data =
        acc.data ++ joinLines (m.map lineChars) := by
  intro m
  induction m with
  | nil =>
    intro acc
    simp [joinLines]
  | cons kv rest ih =>
    intro acc
    rw [List.foldl_cons, ih]
    simp [joinLines, lineChars, string_data_append, List.append_assoc]

theorem splitChar_joinLines :
    ∀ ls : List (List Char), (∀ l ∈ ls, '\n' ∉ l) →
      splitChar '\n' (joinLines ls) = ls ++ [[]] := by
  intro ls
  induction ls with
  | nil => intro _; rfl
  | cons l rest ih =>
    intro h
    have hl : '\n' ∉ l := h l (List.mem_cons_self _ _)
    show splitChar '\n' (l ++ '\n' :: joinLines rest) = _
    rw [splitChar_append '\n' _ l hl, ih (fun x hx => h x (List.mem_cons_of_mem _ hx))]
    rfl

theorem linesOf_joinLines (ls : List (List Char))
    (hnl : ∀ l ∈ ls, '\n' ∉ l) (hcr : ∀ l ∈ ls, '\r' ∉ l) :
    linesOf ⟨joinLines ls⟩ = ls.map (fun l => (⟨l⟩ : String)) := by
  rcases ls with _ | ⟨l0, rest⟩
  · rfl
  · unfold linesOf
    have hne : ¬ ((⟨joinLines (l0 :: rest)⟩ : String).data = []) := by
      show ¬ (joinLines (l0 :: rest) = [])
      show ¬ (l0 ++ '\n' :: joinLines rest = [])
      rcases l0 with _ | ⟨c, cs⟩ <;> simp
    rw [if_neg hne]
    dsimp only
    rw [splitChar_joinLines (l0 :: rest) hnl,
        show l0 :: rest ++ [[]] = (l0 :: rest) ++ [([] : List Char)] from rfl,
        List.getLastD_concat, if_pos rfl, List.dropLast_concat]
    apply List.map_congr_left
    intro l hl
    have hcrl : '\r' ∉ l := hcr l hl
    by_cases hle : l = []
    · subst hle
      rfl
    · have hmem : l.getLastD ' ' ∈ l := getLastD_mem ' ' l hle
      have : ¬ (l.getLastD ' ' = '\r') := by
        intro hh
        rw [hh] at hmem
        exact hcrl hmem
      rw [if_neg this]

theorem parseCloudLine_entry (m0 : StrMap) (kv : String × Nat)
    (hv : kv.2 < 2 ^ 64) :
    parseCloudLine (.ok m0) (⟨lineChars kv⟩ : String) =
      .ok (m0.insert kv.1 kv.2) := by
  unfold parseCloudLine lineChars
  have hcolon : ':' ∉ (natToString kv.2).data := by
    intro hmem
    have := natToString_digits kv.2 ':' hmem
    cases this
  rw [show ((⟨(natToString kv.2).data ++ ':' :: kv.1.data⟩ : String)).data =
      (natToString kv.2).data ++ ':' :: kv.1.data from rfl]
  rw [splitOnceChar_append ':' kv.1.data (natToString kv.2).data hcolon]
  dsimp only
  rw [parseU64_natToString kv.2 hv]

theorem parseCloudfiles_roundtrip_fold :
    ∀ (m m0 : StrMap),
      (∀ kv ∈ m, kv.2 < 2 ^ 64) →
      (m.map (fun kv => (⟨lineChars kv⟩ : String))).foldl parseCloudLine (.ok m0) =
        .ok (insertList m0 m) := by
  intro m
  induction m with
  | nil =>
    intro m0 _
    simp [insertList]
  | cons kv rest ih =>
    intro m0 hv
    rw [List.map_cons, List.foldl_cons,
        parseCloudLine_entry m0 kv (hv kv (List.mem_cons_self _ _)),
        ih _ (fun x hx => hv x (List.mem_cons_of_mem _ hx))]
    rfl

theorem lineChars_no_newline (kv : String × Nat)
    (h1 : '\n' ∉ kv.1.data) : '\n' ∉ lineChars kv := by
  unfold lineChars
  simp only [List.mem_append, List.mem_cons]
  rintro (hm | hm | hm)
  · have := natToString_digits kv.2 '\n' hm
    cases this
  · cases hm
  · exact h1 hm

theorem lineChars_no_cr (kv : String × Nat)
    (h1 : '\r' ∉ kv.1.data) : '\r' ∉ lineChars kv := by
  unfold lineChars
  simp only [List.mem_append, List.mem_cons]
  rintro (hm | hm | hm)
  · have := natToString_digits kv.2 '\r' hm
    cases this
  · cases hm
  · exact h1 hm

/-- Writing the SyncState and loading it again is the identity, for maps
with distinct keys free of line terminators and values below `2^64` — all
invariants the engine maintains. -/
theorem parseCloudfiles_roundtrip (m : StrMap)
    (hnd : (StrMap.keys m).Nodup)
    (hkeys : ∀ kv ∈ m, '\n' ∉ (kv.1 : String).data ∧ '\r' ∉ kv.1.data)
    (hvals : ∀ kv ∈ m, kv.2 < 2 ^ 64) :
    parseCloudfiles (serializeCloudfiles m) = .ok m := by
  unfold parseCloudfiles serializeCloudfiles
  have hser : (m.foldl (fun a kv => a ++ natToString kv.2 ++ ":" ++ kv.1 ++ "\n") "").data =
      joinLines (m.map lineChars) := by
    rw [serializeCloudfiles_data m ""]
    rfl
  have hstr : (m.foldl (fun a kv => a ++ natToString kv.2 ++ ":" ++ kv.1 ++ "\n") "") =
      (⟨joinLines (m.map lineChars)⟩ : String) := String.ext hser
  rw [hstr, linesOf_joinLines (m.map lineChars)
    (by
      intro l hl
      obtain ⟨kv, hkv, rfl⟩ := List.mem_map.mp hl
      exact lineChars_no_newline kv (hkeys kv hkv).1)
    (by
      intro l hl
      obtain ⟨kv, hkv, rfl⟩ := List.mem_map.mp hl
      exact lineChars_no_cr kv (hkeys kv hkv).2)]
  rw [List.map_map]
  rw [show ((fun l => (⟨l⟩ : String)) ∘ lineChars) =
    (fun kv => (⟨lineChars kv⟩ : String)) from rfl]
  rw [parseCloudfiles_roundtrip_fold m [] hvals,
      insertList_eq_append [] m (by simpa using hnd), List.nil_append]

theorem strMap_mem_insert (m : StrMap) (k : String) (v : Nat) :
    ∀ kv ∈ StrMap.insert m k v, kv = (k, v) ∨ kv ∈ m := by
  induction m with
  | nil =>
    intro kv hkv
    exact Or.inl (List.mem_singleton.mp hkv)
  | cons p rest ih =>
    obtain ⟨k0, v0⟩ := p
    intro kv hkv
    by_cases hk : k0 = k
    · rw [show StrMap.insert ((k0, v0) :: rest) k v = (k, v) :: rest from by
        simp [StrMap.insert, hk]] at hkv
      rcases List.mem_cons.mp hkv with rfl | hkv
      · exact Or.inl rfl
      · exact Or.inr (List.mem_cons_of_mem _ hkv)
    · rw [show StrMap.insert ((k0, v0) :: rest) k v =
          (k0, v0) :: StrMap.insert rest k v from by
        simp [StrMap.insert, hk]] at hkv
      rcases List.mem_cons.mp hkv with rfl | hkv
      · exact Or.inr (List.mem_cons_self _ _)
      · rcases ih kv hkv with h1 | h1
        · exact Or.inl h1
        · exact Or.inr (List.mem_cons_of_mem _ h1)

/-- Every loaded SyncState has distinct keys and `u64`-bounded values. -/
theorem parseCloudfiles_ok_inv (raw : String) (m : StrMap)
    (h : parseCloudfiles raw = .ok m) :
    (StrMap.keys m).Nodup ∧ ∀ kv ∈ m, kv.2 < 2 ^ 64 := by
  unfold parseCloudfiles at h
  have main : ∀ (ls : List String) (m0 m1 : StrMap),
      ls.foldl parseCloudLine (.ok m0) = .ok m1 →
      ((StrMap.keys m0).Nodup ∧ ∀ kv ∈ m0, kv.2 < 2 ^ 64) →
      (StrMap.keys m1).Nodup ∧ ∀ kv ∈ m1, kv.2 < 2 ^ 64 := by
    intro ls
    induction ls with
    | nil =>
      intro m0 m1 hf h0
      cases hf
      exact h0
    | cons l rest ih =>
      intro m0 m1 hf h0
      rw [List.foldl_cons] at hf
      rcases hstep : parseCloudLine (.ok m0) l with e | m0'
      · rw [hstep, parseCloudLine_error] at hf
        cases hf
      · rw [hstep] at hf
        refine ih m0' m1 hf ?_
        unfold parseCloudLine at hstep
        dsimp only at hstep
        rcases hsp : splitOnceChar ':' l.data with _ | ⟨lmStr, path⟩ <;>
          rw [hsp] at hstep <;> dsimp only at hstep
        · cases hstep
        · rcases hu : parseU64Chars lmStr with _ | v <;> rw [hu] at hstep
          · cases hstep
          · cases hstep
            have hbound : v < 2 ^ 64 := by
              unfold parseU64Chars at hu
              rcases lmStr with _ | ⟨c0, r0⟩
              · cases hu
              · dsimp only at hu
                by_cases hp : c0 = '+' <;>
                  [rw [if_pos hp] at hu; rw [if_neg hp] at hu]
                · rcases r0 with _ | ⟨c1, r1⟩
                  · cases hu
                  · rcases hvd : valDigits (c1 :: r1) 0 with _ | w <;>
                      rw [hvd] at hu
                    · cases hu
                    · dsimp only at hu
                      split at hu
                      · cases hu
                        assumption
                      · cases hu
                · rcases hvd : valDigits (c0 :: r0) 0 with _ | w <;>
                    rw [hvd] at hu
                  · cases hu
                  · dsimp only at hu
                    split at hu
                    · cases hu
                      assumption
                    · cases hu
            constructor
            · exact StrMap.nodup_keys_insert _ _ _ h0.1
            · intro kv hkv
              rcases strMap_mem_insert m0 ⟨path⟩ v kv hkv with rfl | hm
              · exact hbound
              · exact h0.2 kv hm
  exact main (linesOf raw) [] m h (by simp)

/-! ### Path well-formedness and engine invariants

The upload and delete phases recover a file's drive-relative path with
`path.split(folder).last()`.  This inverts the `folder ++ rel`
concatenation only when the folder string does not occur *inside* the
relative part — the amended idempotence claim is stated under exactly that
condition, and the counterexample below shows the claim fails without
it. -/

/-- A drive-relative path on which the engine's `split(folder).last()`
computation is well-behaved (and which is free of line terminators, so it
round-trips through the state file). -/
def GoodRel (folder k : String) : Prop :=
  splitLast folder k = k ∧ splitLast folder (folder ++ k) = k ∧
  '\n' ∉ k.data ∧ '\r' ∉ k.data

/-- An absolute local path that is the folder plus a well-behaved relative
part. -/
def GoodAbs (folder p : String) : Prop :=
  folder ++ splitLast folder p = p ∧ GoodRel folder (splitLast folder p)

/-- Invariant of the in-memory SyncState: well-behaved keys with
`u64`-bounded timestamps, no duplicate keys. -/
instance (f k : String) : Decidable (GoodRel f k) := by
  unfold GoodRel
  infer_instance

instance (f p : String) : Decidable (GoodAbs f p) := by
  unfold GoodAbs
  infer_instance

def CloudInv (folder : String) (m : StrMap) : Prop :=
  (∀ kv ∈ m, GoodRel folder kv.1 ∧ kv.2 < 2 ^ 64) ∧ (StrMap.keys m).Nodup

/-- Invariant of the in-memory LocalSnapshot: all keys are well-behaved
absolute paths. -/
def LocalInv (folder : String) (m : StrMap) : Prop :=
  ∀ p ∈ StrMap.keys m, GoodAbs folder p

theorem strMap_mem_remove_sub (m : StrMap) (k : String) :
    ∀ kv ∈ StrMap.remove m k, kv ∈ m := by
  induction m with
  | nil => intro kv hkv; cases hkv
  | cons p rest ih =>
    obtain ⟨k0, v0⟩ := p
    intro kv hkv
    unfold StrMap.remove at hkv
    split at hkv
    · exact List.mem_cons_of_mem _ hkv
    · rcases List.mem_cons.mp hkv with rfl | hkv
      · exact List.mem_cons_self _ _
      · exact List.mem_cons_of_mem _ (ih kv hkv)

theorem mem_keys_remove_of_ne (m : StrMap) (k kx : String)
    (hne : k ≠ kx) (h : k ∈ StrMap.keys m) : k ∈ StrMap.keys (StrMap.remove m kx) := by
  induction m with
  | nil => cases h
  | cons p rest ih =>
    obtain ⟨k0, v0⟩ := p
    unfold StrMap.remove
    rcases List.mem_cons.mp h with rfl | h
    · rw [if_neg (fun hh : k = kx => hne hh)]
      exact List.mem_cons_self _ _
    · by_cases h0 : k0 = kx
      · rw [if_pos h0]
        exact h
      · rw [if_neg h0]
        exact List.mem_cons_of_mem _ (ih h)

theorem ne_of_mem_keys_remove (m : StrMap) (k kx : String)
    (hnd : (StrMap.keys m).Nodup) (h : k ∈ StrMap.keys (StrMap.remove m kx)) :
    k ≠ kx := by
  induction m with
  | nil => cases h
  | cons p rest ih =>
    obtain ⟨k0, v0⟩ := p
    simp only [StrMap.keys_cons, List.nodup_cons] at hnd
    unfold StrMap.remove at h
    split at h
    · rename_i h0
      subst h0
      intro hh
      subst hh
      exact hnd.1 h
    · rename_i h0
      rcases List.mem_cons.mp h with rfl | h
      · intro hh
        exact h0 hh
      · exact ih hnd.2 h

theorem cloudInv_remove (folder : String) (m : StrMap) (k : String)
    (h : CloudInv folder m) : CloudInv folder (StrMap.remove m k) :=
  ⟨fun kv hkv => h.1 kv (strMap_mem_remove_sub m k kv hkv),
   StrMap.nodup_keys_remove m k h.2⟩

theorem cloudInv_insert (folder : String) (m : StrMap) (k : String) (v : Nat)
    (h : CloudInv folder m) (hk : GoodRel folder k) (hv : v < 2 ^ 64) :
    CloudInv folder (StrMap.insert m k v) := by
  refine ⟨fun kv hkv => ?_, StrMap.nodup_keys_insert m k v h.2⟩
  rcases strMap_mem_insert m k v kv hkv with rfl | hm
  · exact ⟨hk, hv⟩
  · exact h.1 kv hm

theorem exists_val_of_mem_keys (m : StrMap) (k : String)
    (h : k ∈ StrMap.keys m) : ∃ v, (k, v) ∈ m := by
  obtain ⟨kv, hkv, hfst⟩ := List.mem_map.mp h
  refine ⟨kv.2, ?_⟩
  obtain ⟨k1, v1⟩ := kv
  cases hfst
  exact hkv

/-! ### Phase A preserves the invariants (non-fresh run) -/

theorem applyDelta_inv_step (env : Env) (ls : Nat) (folder : String)
    (st st' : SyncSt) (d : DriveDelta)
    (h : applyDelta env false ls folder st d = .ok st')
    (hts : ∀ k, env.ts k < 2 ^ 64)
    (hd : GoodRel folder d.file.file_path)
    (hc : CloudInv folder st.cloudfiles) (hl : LocalInv folder st.local_files) :
    CloudInv folder st'.cloudfiles ∧ LocalInv folder st'.local_files := by
  obtain ⟨⟨path, lm⟩, ty⟩ := d
  unfold applyDelta at h
  dsimp only at h hd ⊢
  by_cases hskip : lm ≤ ls
  · rw [if_pos hskip] at h
    cases h
    exact ⟨hc, hl⟩
  · rw [if_neg hskip] at h
    rcases hrs : rsplitOnceChar '/' path.data with _ | ⟨fc, rest⟩
    · rw [hrs] at h
      cases h
    · rw [hrs] at h
      simp only [reduceIte] at h
      cases ty with
      | Deleted =>
        dsimp only at h
        simp only [Bool.false_eq_true, if_false] at h
        by_cases hlc : (st.local_files.get? (folder ++ path)).getD 0 < lm
        · rw [if_pos hlc] at h
          by_cases hrm : env.remove_ok (folder ++ path) = true
          · rw [if_pos hrm] at h
            cases h
            exact ⟨cloudInv_remove folder _ path hc,
                   fun p hp => hl p (StrMap.keys_remove_sub _ _ _ hp)⟩
          · rw [if_neg hrm] at h
            cases h
            exact ⟨cloudInv_remove folder _ path hc, hl⟩
        · rw [if_neg hlc] at h
          cases h
          exact ⟨cloudInv_remove folder _ path hc, hl⟩
      | CreatedOrModifiled =>
        dsimp only at h
        simp only [Bool.false_eq_true, if_false] at h
        by_cases hlc : (st.local_files.get? (folder ++ path)).getD 0 < lm
        · rw [if_pos hlc] at h
          by_cases hmk : env.mkdir_ok (folder ++ "/" ++ (⟨fc⟩ : String)) = true
          · rw [if_pos hmk] at h
            rcases hdl : env.download path with _ | contents
            · rw [hdl] at h
              cases h
              exact ⟨hc, hl⟩
            · rw [hdl] at h
              by_cases hfw : env.fswrite_ok (folder ++ path) = true
              · rw [if_pos hfw] at h
                cases h
                refine ⟨cloudInv_insert folder _ path _ hc hd (hts _), ?_⟩
                intro p hp
                rcases (StrMap.mem_keys_insert_iff _ _ _ _).mp hp with hp | rfl
                · exact hl p hp
                · exact ⟨by rw [hd.2.1], by rw [hd.2.1]; exact hd⟩
              · rw [if_neg hfw] at h
                cases h
          · rw [if_neg hmk] at h
            cases h
        · rw [if_neg hlc] at h
          cases h
          exact ⟨cloudInv_remove folder _ path hc, hl⟩

theorem phaseA_inv_fold (env : Env) (ls : Nat) (folder : String)
    (hts : ∀ k, env.ts k < 2 ^ 64) :
    ∀ (deltas : List DriveDelta) (st st' : SyncSt),
      runFold (applyDelta env false ls folder) st deltas = .ok st' →
      (∀ d ∈ deltas, GoodRel folder d.file.file_path) →
      CloudInv folder st.cloudfiles → LocalInv folder st.local_files →
      CloudInv folder st'.cloudfiles ∧ LocalInv folder st'.local_files := by
  intro deltas
  induction deltas with
  | nil =>
    intro st st' h _ hc hl
    cases h
    exact ⟨hc, hl⟩
  | cons d rest ih =>
    intro st st' h hgood hc hl
    unfold runFold at h
    rcases hstep : applyDelta env false ls folder st d with st1 | e | _ <;> rw [hstep] at h
    · obtain ⟨hc1, hl1⟩ := applyDelta_inv_step env ls folder st st1 d hstep hts
        (hgood d (List.mem_cons_self _ _)) hc hl
      exact ih st1 st' h (fun x hx => hgood x (List.mem_cons_of_mem _ hx)) hc1 hl1
    · cases h
    · cases h

/-! ### Phase B: every considered local file ends up tracked -/

theorem uploadStep_inv_step (env : Env) (ls : Nat) (folder : String)
    (st st' : SyncSt) (x : String × Nat)
    (h : uploadStep env ls folder st x = .ok st')
    (hts : ∀ k, env.ts k < 2 ^ 64)
    (hup : ∀ p c, (env.upload p c).isSome)
    (hrd : ∀ p, (env.readFile p).isSome)
    (hx : GoodAbs folder x.1)
    (hc : CloudInv folder st.cloudfiles) :
    CloudInv folder st'.cloudfiles ∧ st'.local_files = st.local_files ∧
    (∀ k ∈ StrMap.keys st.cloudfiles, k ∈ StrMap.keys st'.cloudfiles) ∧
    splitLast folder x.1 ∈ StrMap.keys st'.cloudfiles := by
  obtain ⟨p, m⟩ := x
  unfold uploadStep at h
  dsimp only at h hx ⊢
  rcases hres : st.cloudfiles.get? (splitLast folder p) with _ | v <;>
    rw [hres] at h <;> dsimp only at h
  · rw [show ((false : Bool) || (none : Option Nat).isNone) = true from rfl,
        if_pos rfl] at h
    rcases hrf : env.readFile p with _ | contents
    · have := hrd p
      rw [hrf] at this
      cases this
    · rw [hrf] at h
      dsimp only at h
      rcases hu : env.upload (splitLast folder p) contents with _ | id
      · have := hup (splitLast folder p) contents
        rw [hu] at this
        cases this
      · rw [hu] at h
        dsimp only at h
        cases h
        refine ⟨cloudInv_insert folder _ _ _ hc hx.2 (hts _), rfl, ?_, ?_⟩
        · intro k hk
          exact (StrMap.mem_keys_insert_iff _ _ k _).mpr (Or.inl hk)
        · exact (StrMap.mem_keys_insert_iff _ _ _ _).mpr (Or.inr rfl)
  · have hmem : splitLast folder p ∈ StrMap.keys st.cloudfiles := by
      rw [StrMap.mem_keys_iff_get?, hres]
      rfl
    by_cases hmod : (decide (ls < m) && decide (v < m)) = true
    · rw [hmod, show ((true : Bool) || (some v : Option Nat).isNone) = true from rfl,
          if_pos rfl] at h
      rcases hrf : env.readFile p with _ | contents
      · have := hrd p
        rw [hrf] at this
        cases this
      · rw [hrf] at h
        dsimp only at h
        rcases hu : env.upload (splitLast folder p) contents with _ | id
        · have := hup (splitLast folder p) contents
          rw [hu] at this
          cases this
        · rw [hu] at h
          dsimp only at h
          cases h
          refine ⟨cloudInv_insert folder _ _ _ hc hx.2 (hts _), rfl, ?_, ?_⟩
          · intro k hk
            exact (StrMap.mem_keys_insert_iff _ _ k _).mpr (Or.inl hk)
          · exact (StrMap.mem_keys_insert_iff _ _ _ _).mpr (Or.inr rfl)
    · rw [Bool.not_eq_true] at hmod
      rw [hmod, show ((false : Bool) || (some v : Option Nat).isNone) = false from rfl,
          if_neg (by decide)] at h
      cases h
      exact ⟨hc, rfl, fun k hk => hk, hmem⟩

theorem phaseB_inv_fold (env : Env) (ls : Nat) (folder : String)
    (hts : ∀ k, env.ts k < 2 ^ 64)
    (hup : ∀ p c, (env.upload p c).isSome)
    (hrd : ∀ p, (env.readFile p).isSome) :
    ∀ (l : List (String × Nat)) (st st' : SyncSt),
      runFold (uploadStep env ls folder) st l = .ok st' →
      (∀ x ∈ l, GoodAbs folder x.1) →
      CloudInv folder st.cloudfiles →
      CloudInv folder st'.cloudfiles ∧ st'.local_files = st.local_files ∧
      (∀ k ∈ StrMap.keys st.cloudfiles, k ∈ StrMap.keys st'.cloudfiles) ∧
      (∀ x ∈ l, splitLast folder x.1 ∈ StrMap.keys st'.cloudfiles) := by
  intro l
  induction l with
  | nil =>
    intro st st' h _ hc
    cases h
    exact ⟨hc, rfl, fun k hk => hk, fun x hx => by cases hx⟩
  | cons x rest ih =>
    intro st st' h hgood hc
    unfold runFold at h
    rcases hstep : uploadStep env ls folder st x with st1 | e | _ <;> rw [hstep] at h
    · obtain ⟨hc1, hloc1, hmono1, hx1⟩ := uploadStep_inv_step env ls folder st st1 x
        hstep hts hup hrd (hgood x (List.mem_cons_self _ _)) hc
      obtain ⟨hc2, hloc2, hmono2, hrest⟩ := ih st1 st' h
        (fun y hy => hgood y (List.mem_cons_of_mem _ hy)) hc1
      refine ⟨hc2, hloc2.trans hloc1, fun k hk => hmono2 k (hmono1 k hk), ?_⟩
      intro y hy
      rcases List.mem_cons.mp hy with rfl | hy
      · exact hmono2 _ hx1
      · exact hrest y hy
    · cases h
    · cases h

/-! ### Phase C: surviving tracked entries have a local counterpart -/

theorem deleteStep_inv_step (env : Env) (folder : String)
    (st st' : SyncSt) (x : String × Nat)
    (h : deleteStep env folder st x = .ok st')
    (hdel : ∀ p, env.delete_ok p = true)
    (hx : GoodRel folder x.1)
    (hc : CloudInv folder st.cloudfiles) :
    CloudInv folder st'.cloudfiles ∧ st'.local_files = st.local_files ∧
    (∀ k ∈ StrMap.keys st'.cloudfiles, k ∈ StrMap.keys st.cloudfiles) ∧
    (∀ k ∈ StrMap.keys st'.cloudfiles,
      (folder ++ k) ∈ StrMap.keys st.local_files ∨ k ≠ x.1) ∧
    (∀ k ∈ StrMap.keys st.cloudfiles,
      (folder ++ k) ∈ StrMap.keys st.local_files → k ∈ StrMap.keys st'.cloudfiles) := by
  obtain ⟨p, m⟩ := x
  unfold deleteStep at h
  dsimp only at h hx ⊢
  by_cases hloc : (st.local_files.get? (folder ++ p)).isNone = true
  · rw [if_pos hloc] at h
    rw [hdel (splitLast folder p), if_pos rfl] at h
    cases h
    dsimp only
    rw [hx.1] at *
    have hnotmem : (folder ++ p) ∉ StrMap.keys st.local_files := by
      intro hmem
      rw [StrMap.mem_keys_iff_get?] at hmem
      rcases hg : st.local_files.get? (folder ++ p) with _ | v
      · rw [hg] at hmem
        cases hmem
      · rw [hg] at hloc
        cases hloc
    refine ⟨cloudInv_remove folder _ p hc, rfl, ?_, ?_, ?_⟩
    · exact fun k hk => StrMap.keys_remove_sub _ _ _ hk
    · exact fun k hk => Or.inr (ne_of_mem_keys_remove _ _ _ hc.2 hk)
    · intro k hk hkl
      refine mem_keys_remove_of_ne _ _ _ (fun hkp => ?_) hk
      subst hkp
      exact hnotmem hkl
  · rw [if_neg hloc] at h
    cases h
    refine ⟨hc, rfl, fun k hk => hk, ?_, fun k hk _ => hk⟩
    intro k _
    by_cases hkp : k = p
    · subst hkp
      refine Or.inl ?_
      rw [StrMap.mem_keys_iff_get?]
      rcases hg : st.local_files.get? (folder ++ k) with _ | v
      · rw [hg] at hloc
        exact absurd rfl hloc
      · rfl
    · exact Or.inr hkp

theorem phaseC_inv_fold (env : Env) (folder : String)
    (hdel : ∀ p, env.delete_ok p = true) :
    ∀ (l : List (String × Nat)) (st st' : SyncSt),
      runFold (deleteStep env folder) st l = .ok st' →
      (∀ x ∈ l, GoodRel folder x.1) →
      CloudInv folder st.cloudfiles →
      CloudInv folder st'.cloudfiles ∧ st'.local_files = st.local_files ∧
      (∀ k ∈ StrMap.keys st'.cloudfiles, k ∈ StrMap.keys st.cloudfiles) ∧
      (∀ k ∈ StrMap.keys st'.cloudfiles,
        (folder ++ k) ∈ StrMap.keys st.local_files ∨ k ∉ l.map Prod.fst) ∧
      (∀ k ∈ StrMap.keys st.cloudfiles,
        (folder ++ k) ∈ StrMap.keys st.local_files → k ∈ StrMap.keys st'.cloudfiles) := by
  intro l
  induction l with
  | nil =>
    intro st st' h _ hc
    cases h
    exact ⟨hc, rfl, fun k hk => hk, fun k _ => Or.inr (fun hx => by cases hx),
           fun k hk _ => hk⟩
  | cons x rest ih =>
    intro st st' h hgood hc
    unfold runFold at h
    rcases hstep : deleteStep env folder st x with st1 | e | _ <;> rw [hstep] at h
    · obtain ⟨hc1, hloc1, hsub1, halt1, hkeep1⟩ := deleteStep_inv_step env folder st st1 x
        hstep hdel (hgood x (List.mem_cons_self _ _)) hc
      obtain ⟨hc2, hloc2, hsub2, halt2, hkeep2⟩ := ih st1 st' h
        (fun y hy => hgood y (List.mem_cons_of_mem _ hy)) hc1
      refine ⟨hc2, hloc2.trans hloc1, fun k hk => hsub1 k (hsub2 k hk), ?_, ?_⟩
      · intro k hk
        rcases halt2 k hk with hl | hnr
        · exact Or.inl (hloc1 ▸ hl)
        · rcases halt1 k (hsub2 k hk) with hl | hne
          · exact Or.inl hl
          · refine Or.inr ?_
            intro hmem
            rcases List.mem_cons.mp hmem with hx1 | hx2
            · exact hne hx1
            · exact hnr hx2
      · intro k hk hkl
        refine hkeep2 k (hkeep1 k hk hkl) ?_
        rw [hloc1]
        exact hkl
    · cases h
    · cases h

/-! ### Second-run no-op lemmas -/

theorem applyDelta_skip (env : Env) (ls : Nat) (folder : String)
    (st : SyncSt) (d : DriveDelta) (hle : d.file.last_modified ≤ ls) :
    applyDelta env false ls folder st d = .ok st := by
  unfold applyDelta
  rw [if_pos hle]

theorem phaseA_skip_fold (env : Env) (ls : Nat) (folder : String) :
    ∀ (deltas : List DriveDelta) (st : SyncSt),
      (∀ d ∈ deltas, d.file.last_modified ≤ ls) →
      runFold (applyDelta env false ls folder) st deltas = .ok st := by
  intro deltas
  induction deltas with
  | nil => intro st _; rfl
  | cons d rest ih =>
    intro st hle
    unfold runFold
    rw [applyDelta_skip env ls folder st d (hle d (List.mem_cons_self _ _))]
    exact ih st (fun x hx => hle x (List.mem_cons_of_mem _ hx))

theorem uploadStep_skip (env : Env) (ls : Nat) (folder : String)
    (st : SyncSt) (p : String) (m v : Nat)
    (hres : st.cloudfiles.get? (splitLast folder p) = some v)
    (hm : m ≤ ls) :
    uploadStep env ls folder st (p, m) = .ok st := by
  unfold uploadStep
  dsimp only
  rw [hres]
  have h1 : decide (ls < m) = false := decide_eq_false (by omega)
  simp only [h1, Bool.false_and, Option.isNone_some, Bool.or_self,
             Bool.false_eq_true, if_false]

theorem phaseB_skip_fold (env : Env) (ls : Nat) (folder : String) :
    ∀ (l : List (String × Nat)) (st : SyncSt),
      (∀ x ∈ l, (st.cloudfiles.get? (splitLast folder x.1)).isSome ∧ x.2 ≤ ls) →
      runFold (uploadStep env ls folder) st l = .ok st := by
  intro l
  induction l with
  | nil => intro st _; rfl
  | cons x rest ih =>
    intro st hcond
    obtain ⟨p, m⟩ := x
    obtain ⟨hsome, hm⟩ := hcond (p, m) (List.mem_cons_self _ _)
    rcases hg : st.cloudfiles.get? (splitLast folder p) with _ | v
    · rw [hg] at hsome
      cases hsome
    · unfold runFold
      rw [uploadStep_skip env ls folder st p m v hg hm]
      exact ih st (fun y hy => hcond y (List.mem_cons_of_mem _ hy))

theorem deleteStep_skip (env : Env) (folder : String) (st : SyncSt)
    (x : String × Nat)
    (hloc : (st.local_files.get? (folder ++ x.1)).isSome) :
    deleteStep env folder st x = .ok st := by
  obtain ⟨p, m⟩ := x
  unfold deleteStep
  dsimp only
  dsimp only at hloc
  rcases hg : st.local_files.get? (folder ++ p) with _ | v
  · rw [hg] at hloc
    cases hloc
  · rfl

theorem phaseC_skip_fold (env : Env) (folder : String) :
    ∀ (l : List (String × Nat)) (st : SyncSt),
      (∀ x ∈ l, (st.local_files.get? (folder ++ x.1)).isSome) →
      runFold (deleteStep env folder) st l = .ok st := by
  intro l
  induction l with
  | nil => intro st _; rfl
  | cons x rest ih =>
    intro st hcond
    unfold runFold
    rw [deleteStep_skip env folder st x (hcond x (List.mem_cons_self _ _))]
    exact ih st (fun y hy => hcond y (List.mem_cons_of_mem _ hy))

theorem get_drive_delta_fst (env : Env) (a : Account) :
    (get_drive_delta env a).1 = (env.feed (delta_link_of a.attributes)).1 := by
  unfold get_drive_delta
  rcases h : env.feed (delta_link_of a.attributes) with ⟨deltas, nl⟩
  cases nl <;> rfl

theorem fst_mem_keys_of_mem (m : StrMap) (x : String × Nat) (h : x ∈ m) :
    x.1 ∈ StrMap.keys m :=
  List.mem_map_of_mem Prod.fst h

/-- Postcondition of one successful non-fresh run under the hygiene
hypotheses: the final SyncState and LocalSnapshot are well-formed, every
local file is tracked under its relativised key, every tracked key has a
local counterpart, and the state file written is the serialised SyncState. -/
theorem run_post (env : Env) (account : Account) (folder : String)
    (contents : String) (scan : StrMap) (r : SyncResult)
    (hrun : sync_files env account folder false contents scan = .ok r)
    (hts : ∀ k, env.ts k < 2 ^ 64)
    (hup : ∀ p c, (env.upload p c).isSome)
    (hrd : ∀ p, (env.readFile p).isSome)
    (hdel : ∀ p, env.delete_ok p = true)
    (hscan : ∀ p ∈ StrMap.keys scan, GoodAbs folder p)
    (hcloud0 : ∀ m, parseCloudfiles contents = .ok m → CloudInv folder m)
    (hfeed : ∀ link : String, ∀ d ∈ (env.feed link).1,
       GoodRel folder d.file.file_path) :
    CloudInv folder r.st.cloudfiles ∧
    LocalInv folder r.st.local_files ∧
    (∀ p ∈ StrMap.keys r.st.local_files,
        splitLast folder p ∈ StrMap.keys r.st.cloudfiles) ∧
    (∀ k ∈ StrMap.keys r.st.cloudfiles,
        (folder ++ k) ∈ StrMap.keys r.st.local_files) ∧
    r.file_content = serializeCloudfiles r.st.cloudfiles := by
  unfold sync_files at hrun
  rcases htok : tokenStage env account with _ | b <;> rw [htok] at hrun
  · cases hrun
  dsimp only at hrun
  rw [show freshReset b false = b from rfl,
      show loadStage false contents = parseCloudfiles contents from rfl,
      show cleanupStage env false scan = Except.ok scan from rfl] at hrun
  rcases hpc : parseCloudfiles contents with e | cloudfiles0 <;> rw [hpc] at hrun
  · cases hrun
  dsimp only at hrun
  rcases hgd : get_drive_delta env b with ⟨deltas, account2⟩
  rw [hgd] at hrun
  obtain ⟨stA, stB, stC, hA, hB, hC, hcommit⟩ :=
    phasesStage_ok_inv env folder false account2 (initialSt scan cloudfiles0)
      deltas r hrun
  have hdeltas : deltas = (env.feed (delta_link_of b.attributes)).1 := by
    rw [← get_drive_delta_fst env b, hgd]
  obtain ⟨hcA, hlA⟩ := phaseA_inv_fold env account2.last_synced folder hts deltas
    (initialSt scan cloudfiles0) stA hA
    (fun d hd => hfeed _ d (hdeltas ▸ hd))
    (hcloud0 cloudfiles0 hpc) hscan
  obtain ⟨hcB, hlocB, hmonoB, hPB⟩ := phaseB_inv_fold env account2.last_synced
    folder hts hup hrd stA.local_files stA stB hB
    (fun x hx => hlA x.1 (fst_mem_keys_of_mem _ x hx)) hcA
  obtain ⟨hcC, hlocC, hsubC, haltC, hkeepC⟩ := phaseC_inv_fold env folder hdel
    stB.cloudfiles stB stC hC
    (fun x hx => ((hcB.1 x hx).1)) hcB
  obtain ⟨htr, hsave, hr⟩ := commitStage_ok_inv env account2 stC r hcommit
  have hlocCB : stC.local_files = stA.local_files := hlocC.trans hlocB
  have hP1 : ∀ p ∈ StrMap.keys stC.local_files,
      splitLast folder p ∈ StrMap.keys stC.cloudfiles := by
    intro p hp
    rw [hlocCB] at hp
    obtain ⟨v, hv⟩ := exists_val_of_mem_keys _ p hp
    have hrel := hPB (p, v) hv
    have habs := hlA p hp
    refine hkeepC (splitLast folder p) hrel ?_
    rw [habs.1, hlocB]
    exact hp
  have hP2 : ∀ k ∈ StrMap.keys stC.cloudfiles,
      (folder ++ k) ∈ StrMap.keys stC.local_files := by
    intro k hk
    rcases haltC k hk with hl | hno
    · rw [hlocC]
      exact hl
    · exact absurd (hsubC k hk) hno
  have hlC : LocalInv folder stC.local_files := by
    rw [hlocCB]
    exact hlA
  subst hr
  exact ⟨hcC, hlC, hP1, hP2, rfl⟩

/-- Claim C2 (amended): idempotence of reconciliation holds only under a
path-hygiene side condition absent from the spec.  Provided (i) every
scanned path and every delta path relativises cleanly — `split(folder)
.last()` inverts prefixing for it, which fails e.g. when the folder string
reoccurs inside the relative part — (ii) the per-file effect oracles
(upload, file read, remote delete) succeed, timestamps fit in `u64`, and
the persisted SyncState parses to a well-formed table, and (iii) after a
successful first non-fresh run nothing changes locally (same key set, all
mtimes at most the committed `last_synced`) or remotely (every delta the
provider feeds the second run is not newer than `last_synced`), then a
second successful non-fresh run performs zero downloads, zero uploads and
zero local or remote deletions. -/
theorem C2_idempotent_amended
    (env1 env2 : Env) (account : Account) (folder : String)
    (contents : String) (scan1 scan2 : StrMap) (r1 r2 : SyncResult)
    (hrun1 : sync_files env1 account folder false contents scan1 = .ok r1)
    (hts1 : ∀ k, env1.ts k < 2 ^ 64)
    (hup1 : ∀ p c, (env1.upload p c).isSome)
    (hrd1 : ∀ p, (env1.readFile p).isSome)
    (hdel1 : ∀ p, env1.delete_ok p = true)
    (hscan1 : ∀ p ∈ StrMap.keys scan1, GoodAbs folder p)
    (hcloud0 : ∀ m, parseCloudfiles contents = .ok m → CloudInv folder m)
    (hfeed1 : ∀ link : String, ∀ d ∈ (env1.feed link).1,
       GoodRel folder d.file.file_path)
    (hfeed2 : ∀ link : String, ∀ d ∈ (env2.feed link).1,
       d.file.last_modified ≤ r1.account.last_synced)
    (hscan2keys : StrMap.keys scan2 = StrMap.keys r1.st.local_files)
    (hscan2le : ∀ x ∈ scan2, x.2 ≤ r1.account.last_synced)
    (hrun2 : sync_files env2 r1.account folder false r1.file_content scan2
       = .ok r2) :
    r2.st.downloaded_count = 0 ∧ r2.st.uploaded_count = 0 ∧
    r2.st.deleted_local_count = 0 ∧ r2.st.deleted_cloud_count = 0 := by
  obtain ⟨hcC, hlC, hP1, hP2, hcontent⟩ := run_post env1 account folder contents
    scan1 r1 hrun1 hts1 hup1 hrd1 hdel1 hscan1 hcloud0 hfeed1
  -- unfold the second run
  unfold sync_files at hrun2
  rcases htok2 : tokenStage env2 r1.account with _ | b2 <;> rw [htok2] at hrun2
  · cases hrun2
  dsimp only at hrun2
  rw [show freshReset b2 false = b2 from rfl,
      show loadStage false r1.file_content = parseCloudfiles r1.file_content
        from rfl,
      show cleanupStage env2 false scan2 = Except.ok scan2 from rfl] at hrun2
  have hparse2 : parseCloudfiles r1.file_content = .ok r1.st.cloudfiles := by
    rw [hcontent]
    exact parseCloudfiles_roundtrip r1.st.cloudfiles hcC.2
      (fun kv hkv => ⟨((hcC.1 kv hkv).1).2.2.1, ((hcC.1 kv hkv).1).2.2.2⟩)
      (fun kv hkv => (hcC.1 kv hkv).2)
  rw [hparse2] at hrun2
  dsimp only at hrun2
  rcases hgd2 : get_drive_delta env2 b2 with ⟨deltas2, account2⟩
  rw [hgd2] at hrun2
  obtain ⟨stA2, stB2, stC2, hA2, hB2, hC2, hcm2⟩ :=
    phasesStage_ok_inv env2 folder false account2
      (initialSt scan2 r1.st.cloudfiles) deltas2 r2 hrun2
  have hls2 : account2.last_synced = r1.account.last_synced := by
    have h1 : account2 = (get_drive_delta env2 b2).2 := by rw [hgd2]
    rw [h1, get_drive_delta_last_synced env2 b2,
        (tokenStage_some_inv env2 r1.account b2 htok2).1]
  have hdeltas2 : deltas2 = (env2.feed (delta_link_of b2.attributes)).1 := by
    rw [← get_drive_delta_fst env2 b2, hgd2]
  -- Phase A of the second run is all-skip
  have hAskip : runFold (applyDelta env2 false account2.last_synced folder)
      (initialSt scan2 r1.st.cloudfiles) deltas2
      = .ok (initialSt scan2 r1.st.cloudfiles) := by
    refine phaseA_skip_fold env2 account2.last_synced folder deltas2 _ ?_
    intro d hd
    rw [hls2]
    exact hfeed2 _ d (hdeltas2 ▸ hd)
  have hstA2 : stA2 = initialSt scan2 r1.st.cloudfiles := by
    rw [hAskip] at hA2
    cases hA2
    rfl
  subst hstA2
  -- Phase B of the second run is all-skip
  have hBskip : runFold (uploadStep env2 account2.last_synced folder)
      (initialSt scan2 r1.st.cloudfiles)
      (initialSt scan2 r1.st.cloudfiles).local_files
      = .ok (initialSt scan2 r1.st.cloudfiles) := by
    refine phaseB_skip_fold env2 account2.last_synced folder _ _ ?_
    intro x hx
    have hxk : x.1 ∈ StrMap.keys scan2 := fst_mem_keys_of_mem scan2 x hx
    rw [hscan2keys] at hxk
    refine ⟨?_, hls2 ▸ hscan2le x hx⟩
    rw [show (initialSt scan2 r1.st.cloudfiles).cloudfiles = r1.st.cloudfiles
          from rfl,
        ← StrMap.mem_keys_iff_get?]
    exact hP1 x.1 hxk
  have hstB2 : stB2 = initialSt scan2 r1.st.cloudfiles := by
    rw [hBskip] at hB2
    cases hB2
    rfl
  subst hstB2
  -- Phase C of the second run is all-skip
  have hCskip : runFold (deleteStep env2 folder)
      (initialSt scan2 r1.st.cloudfiles)
      (initialSt scan2 r1.st.cloudfiles).cloudfiles
      = .ok (initialSt scan2 r1.st.cloudfiles) := by
    refine phaseC_skip_fold env2 folder _ _ ?_
    intro x hx
    have hxk : x.1 ∈ StrMap.keys r1.st.cloudfiles :=
      fst_mem_keys_of_mem r1.st.cloudfiles x hx
    have := hP2 x.1 hxk
    rw [← hscan2keys] at this
    rw [show (initialSt scan2 r1.st.cloudfiles).local_files = scan2 from rfl,
        ← StrMap.mem_keys_iff_get?]
    exact this
  have hstC2 : stC2 = initialSt scan2 r1.st.cloudfiles := by
    rw [hCskip] at hC2
    cases hC2
    rfl
  subst hstC2
  obtain ⟨_, _, hr2⟩ := commitStage_ok_inv env2 account2 _ r2 hcm2
  subst hr2
  exact ⟨rfl, rfl, rfl, rfl⟩

/-! ### Claim C2: concrete scenarios -/

/-- An environment in which every per-file effect succeeds, the clock always
reads 100, and the provider feeds no deltas. -/
def C2env : Env :=
  { ts := fun _ => 100
    feed := fun _ => ([], none)
    download := fun _ => some "c"
    upload := fun _ _ => some "id"
    readFile := fun _ => some "c"
    delete_ok := fun _ => true
    remove_ok := fun _ => true
    mkdir_ok := fun _ => true
    fswrite_ok := fun _ => true
    truncate_ok := true
    write_line_ok := fun _ => true
    save_ok := true
    refresh := some ⟨"t2", "r2", 2000⟩ }

def C2account : Account :=
  { service := .Onedrive
    token := ⟨"t", "r", 1000⟩
    last_synced := 0
    attributes := [] }

/-- First-run LocalSnapshot of the folder `/a`: the state file and one
regular file `/a/a/x` whose path contains the folder name a second time. -/
def C2scan1 : StrMap := [("/a/.cloudfiles", 5), ("/a/a/x", 5)]

/-- Second-run LocalSnapshot: identical to `C2scan1` except that the state
file now carries the mtime the engine itself gave it at commit. -/
def C2scan2 : StrMap := [("/a/.cloudfiles", 100), ("/a/a/x", 5)]

/-- Outcome of the first run on `C2scan1` (computed). -/
def C2r1 : SyncResult :=
  ⟨⟨4, C2scan1, [("/.cloudfiles", 100)], 0, 2, 0, 1,
    [], ["/.cloudfiles", "/x"], ["/x"], []⟩,
   { C2account with last_synced := 100 }, "100:/.cloudfiles\n"⟩

/-- Outcome of the second run (computed): one upload and one remote delete,
not zero actions. -/
def C2r2 : SyncResult :=
  ⟨⟨3, C2scan2, [("/.cloudfiles", 100)], 0, 1, 0, 1,
    [], ["/x"], ["/x"], []⟩,
   { C2account with last_synced := 100 }, "100:/.cloudfiles\n"⟩

set_option maxRecDepth 400000 in
/-- Claim C2 (counterexample): reconciliation is NOT idempotent as claimed.
Folder `/a` holds the files `/a/.cloudfiles` and `/a/a/x`; the first
non-fresh run succeeds, nothing changes locally (the only mtime that moved
is the state file's own, rewritten by the engine at commit) and the
provider feeds no deltas afterwards, yet the second non-fresh run performs
one upload and one remote delete: `split("/a").last()` relativises
`/a/a/x` to `/x`, so the entry committed as `/x` never matches the local
file that produced it, and the pair re-uploads and re-deletes it on every
run. -/
theorem C2_counterexample :
    sync_files C2env C2account "/a" false "" C2scan1 = .ok C2r1 ∧
    sync_files C2env C2r1.account "/a" false C2r1.file_content C2scan2
      = .ok C2r2 ∧
    ¬(C2r2.st.downloaded_count = 0 ∧ C2r2.st.uploaded_count = 0 ∧
      C2r2.st.deleted_local_count = 0 ∧ C2r2.st.deleted_cloud_count = 0) :=
  ⟨by decide, by decide, by decide⟩

/-- Witness LocalSnapshot for the amended theorem: folder `/r` with the
single well-behaved file `/r/x.txt`. -/
def C2wScan : StrMap := [("/r/x.txt", 5)]

/-- Outcome of the witness's first run (computed): `/x.txt` is uploaded and
committed at time 100. -/
def C2wR1 : SyncResult :=
  ⟨⟨3, C2wScan, [("/x.txt", 100)], 0, 1, 0, 0, [], ["/x.txt"], [], []⟩,
   { C2account with last_synced := 100 }, "100:/x.txt\n"⟩

/-- Outcome of the witness's second run (computed): zero actions. -/
def C2wR2 : SyncResult :=
  ⟨⟨2, C2wScan, [("/x.txt", 100)], 0, 0, 0, 0, [], [], [], []⟩,
   { C2account with last_synced := 100 }, "100:/x.txt\n"⟩

set_option maxRecDepth 400000 in
/-- Witness for the amended claim C2 theorem: on the well-behaved folder
`/r` with the single file `/r/x.txt`, both runs succeed and the theorem's
hypotheses hold, so the second run performs zero actions. -/
theorem C2_idempotent_amended_witness :
    sync_files C2env C2account "/r" false "" C2wScan = .ok C2wR1 ∧
    sync_files C2env C2wR1.account "/r" false C2wR1.file_content C2wScan
      = .ok C2wR2 ∧
    (C2wR2.st.downloaded_count = 0 ∧ C2wR2.st.uploaded_count = 0 ∧
     C2wR2.st.deleted_local_count = 0 ∧ C2wR2.st.deleted_cloud_count = 0) := by
  refine ⟨by decide, by decide, ?_⟩
  exact C2_idempotent_amended C2env C2env C2account "/r" "" C2wScan C2wScan
    C2wR1 C2wR2 (by decide)
    (fun _ => (by decide : (100 : Nat) < 2 ^ 64))
    (fun p c => rfl) (fun p => rfl) (fun p => rfl)
    (by decide)
    (fun m hm => by
      rw [show parseCloudfiles "" = Except.ok ([] : StrMap) from rfl] at hm
      cases hm
      exact ⟨fun kv hkv => absurd hkv (List.not_mem_nil kv), List.nodup_nil⟩)
    (fun link d hd => absurd hd (List.not_mem_nil d))
    (fun link d hd => absurd hd (List.not_mem_nil d))
    (by decide) (by decide) (by decide)

end Cloudsync
